import Mathlib

/-!
Verification development for the object-initializer engine of the lacc C
compiler front-end (src/parser/initializer.c).

The engine is shallowly embedded: tokens, types, targets and assignment
statements are explicit Lean data; external collaborators (the expression
parser, the constant-expression evaluator, the IR assignment emitter and
the type-compatibility test of the type tree) are oracle parameters, as
they live outside the file under verification.  Machine integers are
modelled as Int (byte offsets, which the source keeps signed) and Nat
(sizes and bit positions).  Fallible code returns Except.
-/

namespace Lacc

/-- Tokens relevant to the initializer grammar.  `other` stands for any
token that the engine itself never inspects (expression material); `eof`
is the end-of-stream token returned by peeking past the end. -/
inductive Tok where
  | lbrace | rbrace | lbrack | rbrack | comma | dot | assign
  | ident (n : Nat)
  | other
  | eof
deriving DecidableEq

/-- peek(): look at the next token without consuming. -/
def peek (ts : List Tok) : Tok := ts.headD .eof

/-- peekn(2): look at the second token without consuming. -/
def peek2 (ts : List Tok) : Tok := (ts.drop 1).headD .eof

/-- The three-valued current-object state from the source
(enum current_object_state). -/
inductive CObjState where
  | CURRENT | DESIGNATOR | MEMBER
deriving DecidableEq

/-- C type model.  Only the aspects the initializer engine inspects are
kept: the type category, the byte size, array element type and length,
and struct/union member lists.  A member is the tuple
(name, offset, field_offset, field_width, type); bit-field members have
field_width different from 0.  `t_scalar sz` stands for the remaining
scalar categories (bool, floating, pointer) of the given size. -/
inductive Ty where
  | t_void
  | t_char
  | t_short
  | t_int
  | t_long
  | t_scalar (sz : Nat)
  | t_func
  | t_array (elem : Ty) (len : Nat)
  | t_struct (sz : Nat) (ms : List (Nat × Nat × Nat × Nat × Ty))
  | t_union (sz : Nat) (ms : List (Nat × Nat × Nat × Nat × Ty))

/-- A struct/union member record (name, offset, field_offset, field_width, type). -/
abbrev Memb := Nat × Nat × Nat × Nat × Ty

def Memb.name (m : Memb) : Nat := m.1
def Memb.off (m : Memb) : Nat := m.2.1
def Memb.fo (m : Memb) : Nat := m.2.2.1
def Memb.fw (m : Memb) : Nat := m.2.2.2.1
def Memb.ty (m : Memb) : Ty := m.2.2.2.2

/-- size_of from the type tree: byte size of a type; incomplete arrays
(len 0) and functions have size 0. -/
def size_of : Ty → Nat
  | .t_void => 0
  | .t_char => 1
  | .t_short => 2
  | .t_int => 4
  | .t_long => 8
  | .t_scalar sz => sz
  | .t_func => 0
  | .t_array e n => n * size_of e
  | .t_struct sz _ => sz
  | .t_union sz _ => sz

def is_struct : Ty → Bool
  | .t_struct _ _ => true
  | _ => false

def is_union : Ty → Bool
  | .t_union _ _ => true
  | _ => false

def is_struct_or_union (t : Ty) : Bool := is_struct t || is_union t

def is_array : Ty → Bool
  | .t_array _ _ => true
  | _ => false

def is_function : Ty → Bool
  | .t_func => true
  | _ => false

def is_void : Ty → Bool
  | .t_void => true
  | _ => false

def is_char : Ty → Bool
  | .t_char => true
  | _ => false

/-- type_next: element type of an array. -/
def type_next : Ty → Ty
  | .t_array e _ => e
  | _ => .t_void

/-- type_array_len: declared length of an array type (0 when incomplete). -/
def type_array_len : Ty → Nat
  | .t_array _ n => n
  | _ => 0

/-- nmembers of a struct/union type. -/
def nmembers : Ty → Nat
  | .t_struct _ ms => ms.length
  | .t_union _ ms => ms.length
  | _ => 0

/-- members list of a struct/union type. -/
def membersOf : Ty → List Memb
  | .t_struct _ ms => ms
  | .t_union _ ms => ms
  | _ => []

/-- get_member(type, i). -/
def get_member (t : Ty) (i : Nat) : Option Memb := (membersOf t).get? i

/-- find_type_member(type, name, &i): the first member with the given
name, together with its index (the source reports the index through the
out-parameter i). -/
def find_type_member (t : Ty) (name : Nat) : Option (Memb × Nat) :=
  go (membersOf t) 0
where
  go : List Memb → Nat → Option (Memb × Nat)
    | [], _ => none
    | m :: rest, i => if m.name = name then some (m, i) else go rest (i + 1)

/-- The var kinds the engine inspects (struct var .kind in the source). -/
inductive VKind where
  | IMMEDIATE | DIRECT | ADDRESS | DEREF
deriving DecidableEq

/-- Expression operations the engine distinguishes: IR_OP_ID (identity),
IR_OP_CALL, and everything else. -/
inductive OpM where
  | id | call | other
deriving DecidableEq

/-- The slice of struct expression the engine reads: the operation, the
result type, and for identity expressions the kind of the operand l and
two facts about l.symbol (whether its linkage differs from LINK_NONE and
whether its symtype is SYM_LITERAL). -/
structure ExprM where
  op : OpM
  ty : Ty
  lkind : VKind
  l_linkage : Bool
  l_literal : Bool

/-- is_identity(expr): the expression is a plain operand reference. -/
def is_identity (e : ExprM) : Bool := e.op = .id

/-- A write target (struct var): byte offset within the owning symbol
(signed in the source), bit-field offset and width, the slot type, and
the lvalue flag.  The owning symbol itself is threaded separately by the
engine model, since every target of one initializer shares it. -/
structure Var where
  offset : Int
  field_offset : Nat
  field_width : Nat
  ty : Ty
  lvalue : Bool := false

/-- An IR_ASSIGN statement: target and assigned expression.  All
statements the initializer engine manipulates are assignments. -/
structure Stmt where
  t : Var
  expr : ExprM

/-- var__immediate_zero with its type set (the zero-valued immediate the
zero-fill paths assign from). -/
def zeroExpr (ty : Ty) : ExprM :=
  { op := .id, ty := ty, lkind := .IMMEDIATE, l_linkage := false, l_literal := false }

/-- is_loadtime_constant(expr), faithful to the source switch including
the DIRECT-to-ADDRESS fallthrough: an identity expression that is an
immediate, or a direct reference to an array/function of a symbol with
linkage, or an address of a symbol with linkage. -/
def is_loadtime_constant (e : ExprM) : Bool :=
  if ¬ is_identity e then false
  else
    match e.lkind with
    | .IMMEDIATE => true
    | .DIRECT =>
        if ¬ is_array e.ty ∧ ¬ is_function e.ty then false
        else e.l_linkage
    | .ADDRESS => e.l_linkage
    | .DEREF => false

/-- next_element(state): the struct/union continuation probe.  Returns
whether the list continues and the remaining tokens (the comma is
consumed exactly when the probe reports a continuation).  Faithful to
the source switch: after a comma, a closing brace never continues, a dot
continues only in state CURRENT (falling through to the default), and
every other token continues. -/
def next_element (state : CObjState) (ts : List Tok) : Bool × List Tok :=
  if peek ts = .comma then
    match peek2 ts with
    | .rbrace => (false, ts)
    | .dot => if state ≠ .CURRENT then (false, ts) else (true, ts.drop 1)
    | _ => (true, ts.drop 1)
  else (false, ts)

/-- has_next_array_element(state, &is_designator): the array
continuation probe.  Returns (has_next, is_designator) and never
consumes tokens (the caller consumes the comma).  After a comma, a
closing brace or a dot never continues, an opening bracket continues
(flagged as designator) only in state CURRENT, and every other token
continues. -/
def has_next_array_element (state : CObjState) (ts : List Tok) : Bool × Bool :=
  if peek ts = .comma then
    match peek2 ts with
    | .rbrace => (false, false)
    | .dot => (false, false)
    | .lbrack => if state ≠ .CURRENT then (false, false) else (true, true)
    | _ => (true, false)
  else (false, false)

/-- access_member(target, member, offset): descend into a member,
narrowing the slot type and adjusting offsets. -/
def access_member (target : Var) (m : Memb) (offset : Int) : Var :=
  { target with
    ty := m.ty
    field_offset := m.fo
    field_width := m.fw
    offset := offset + (m.off : Int) }

/-- Core of zero_initialize(def, values, target): the list of zero
assignments emitted for one object of type t at the given position.
Struct/union storage is reinterpreted as an array of long (size divisible
by 8) or char, exactly as the source creates an array type and falls
through to the array case; arrays decompose per element; scalars emit a
single zero-immediate assignment carrying the target's bit-field slice.
(The source's unreachable fatal-error arm for void/function types is
modelled as no emission.) -/
def zi : Ty → Int → Nat → Nat → List Stmt
  | .t_struct sz _, off, fo, fw =>
      if sz % 8 = 0 then
        (List.range (sz / 8)).map fun i =>
          { t := { offset := off + (i : Int) * 8, field_offset := fo, field_width := fw, ty := .t_long },
            expr := zeroExpr .t_long }
      else
        (List.range sz).map fun i =>
          { t := { offset := off + (i : Int), field_offset := fo, field_width := fw, ty := .t_char },
            expr := zeroExpr .t_char }
  | .t_union sz _, off, fo, fw =>
      if sz % 8 = 0 then
        (List.range (sz / 8)).map fun i =>
          { t := { offset := off + (i : Int) * 8, field_offset := fo, field_width := fw, ty := .t_long },
            expr := zeroExpr .t_long }
      else
        (List.range sz).map fun i =>
          { t := { offset := off + (i : Int), field_offset := fo, field_width := fw, ty := .t_char },
            expr := zeroExpr .t_char }
  | .t_array e n, off, fo, fw =>
      (List.range ((n * size_of e) / size_of e)).flatMap fun i =>
        zi e (off + (i : Int) * (size_of e : Int)) fo fw
  | .t_void, _, _, _ => []
  | .t_func, _, _, _ => []
  | t, off, fo, fw =>
      [{ t := { offset := off, field_offset := fo, field_width := fw, ty := t },
         expr := zeroExpr t }]

/-- zero_initialize(def, values, target), as the list of emitted zero
assignments (the source appends them to the values block). -/
def zero_initialize (target : Var) : List Stmt :=
  zi target.ty target.offset target.field_offset target.field_width

/-- Nesting depth of array types, the recursion measure of zi. -/
def arrayDepth : Ty → Nat
  | .t_array e _ => arrayDepth e + 1
  | _ => 0

/-- Store size chosen by one step of zero_initialize_bytes: with
r = bytes % 8, the source stores 8 bytes when r = 0, r bytes when r is
1, 2 or 4, and otherwise 1 byte (the switch default resets size to 1). -/
def zib_size (bytes : Nat) : Nat :=
  if bytes % 8 = 0 then 8 else if bytes % 8 = 2 then 2 else if bytes % 8 = 4 then 4 else 1

/-- Store type matching zib_size (char/short/int/long). -/
def zib_ty (bytes : Nat) : Ty :=
  if bytes % 8 = 0 then .t_long
  else if bytes % 8 = 2 then .t_short
  else if bytes % 8 = 4 then .t_int
  else .t_char

/-- Loop of zero_initialize_bytes, with structural recursion on a fuel
argument so the model computes; since every step stores at least one
byte, fuel equal to the byte count is always enough (see zib below).
Bit-field state was cleared by the caller, so every emitted assignment
has field_offset = field_width = 0. -/
def zibF : Nat → Int → Nat → List Stmt
  | 0, _, _ => []
  | fuel + 1, off, bytes =>
      if bytes = 0 then []
      else
        { t := { offset := off, field_offset := 0, field_width := 0, ty := zib_ty bytes },
          expr := zeroExpr (zib_ty bytes) } :: zibF fuel (off + (zib_size bytes : Int)) (bytes - zib_size bytes)

/-- Loop of zero_initialize_bytes (fuel instantiated). -/
def zib (off : Int) (bytes : Nat) : List Stmt := zibF bytes off bytes

/-- zero_initialize_bytes(def, values, target, bytes): clears the
bit-field state of the target, then fills bytes from target.offset. -/
def zero_initialize_bytes (target : Var) (bytes : Nat) : List Stmt :=
  zib target.offset bytes

/-- initialize_padding(def, block, target, field): zeros between the
cursor (first position not yet initialized) and the next explicit
assignment.  If whole bytes are missing, first close an open bit-field
storage unit, then byte-fill; if only bits are missing within the same
offset, fill the bit range.  (When the cursor overshoots the next field
the source's size_t subtraction would wrap; the model clamps to 0,
which is unreachable for well-formed layouts.) -/
def initialize_padding (target field : Var) : List Stmt :=
  if target.offset < field.offset then
    let pre :=
      if target.field_offset ≠ 0 then
        let bits := size_of target.ty * 8
        zero_initialize { target with field_width := bits - target.field_offset }
      else []
    let target :=
      if target.field_offset ≠ 0 then
        { target with offset := target.offset + (size_of target.ty : Int),
                      field_offset := 0, field_width := 0 }
      else target
    pre ++ zero_initialize_bytes target (field.offset - target.offset).toNat
  else if target.field_offset < field.field_offset then
    zero_initialize { target with field_width := field.field_offset - target.field_offset }
  else []

/-- The storage-unit type of a trailing bit-field, from the largest
bit-field storage size seen (the source's switch; the default arm
asserts size 8 and uses long). -/
def trailTy : Nat → Ty
  | 1 => .t_char
  | 2 => .t_short
  | 4 => .t_int
  | _ => .t_long

/-- Bits of the trailing bit-field storage unit. -/
def trailBits : Nat → Nat
  | 1 => 8
  | 2 => 16
  | 4 => 32
  | _ => 64

/-- Final byte-fill of initialize_trailing_padding: zero the bytes from
the cursor up to the total size, when any remain. -/
def trailFill (target : Var) (size : Nat) : List Stmt :=
  if (size : Int) > target.offset then zib target.offset ((size : Int) - target.offset).toNat
  else []

/-- initialize_trailing_padding(def, block, target, size, bitfield_size):
close a trailing bit-field storage unit (typed by the largest bit-field
storage size seen), then byte-fill to the total size. -/
def initialize_trailing_padding (target : Var) (size : Nat) (bitfield_size : Nat) : List Stmt :=
  if target.field_offset ≠ 0 then
    zero_initialize { target with ty := trailTy bitfield_size,
                                  field_width := trailBits bitfield_size - target.field_offset } ++
      trailFill { target with ty := trailTy bitfield_size,
                              offset := target.offset + (size_of (trailTy bitfield_size) : Int) } size
  else trailFill target size

/-- validate_initializer_block(block): the debug invariant the source
asserts on the post-processed buffer, as a boolean: starting from a
zeroed cursor, each assignment must either start exactly at the end of
the previous whole-word write or continue the previous bit-field slice
at the same offset. -/
def validate_initializer_block (stmts : List Stmt) : Bool :=
  go { offset := 0, field_offset := 0, field_width := 0, ty := .t_void } stmts
where
  go (target : Var) : List Stmt → Bool
    | [] => true
    | s :: rest =>
        let field := s.t
        if target.offset ≤ field.offset then
          if target.offset < field.offset then
            (field.offset - target.offset = (size_of target.ty : Int)) && go field rest
          else
            (target.field_offset + target.field_width = field.field_offset) && go field rest
        else false

/-- A default statement used by the total list accessors of the
sort_and_trim model (never observed for in-bounds indexing). -/
def dummyStmt : Stmt :=
  { t := { offset := 0, field_offset := 0, field_width := 0, ty := .t_void },
    expr := zeroExpr .t_void }

/-- Total indexing into the statement buffer (code[j]). -/
def stGet (l : List Stmt) (j : Nat) : Stmt := l.getD j dummyStmt

/-- Swap code[j] and code[j+1]. -/
def stSwap (l : List Stmt) (j : Nat) : List Stmt :=
  (l.set j (stGet l (j + 1))).set (j + 1) (stGet l j)

/-- Inner while loop of sort_and_trim: bubble the element at j+1 down
while the element before it has a strictly greater offset (the source
compares offsets only, breaking at j = 0).  Returns the buffer and the
final j. -/
def strimBubble : List Stmt → Nat → List Stmt × Nat
  | code, 0 =>
      if (stGet code 0).t.offset > (stGet code 1).t.offset then (stSwap code 0, 0)
      else (code, 0)
  | code, j + 1 =>
      if (stGet code (j + 1)).t.offset > (stGet code (j + 2)).t.offset then
        strimBubble (stSwap code (j + 1)) j
      else (code, j + 1)

/-- Outer for loop of sort_and_trim over index i, with explicit fuel
(the source's loop runs at most length-many steps: each iteration either
advances i or shrinks the buffer).  After bubbling, if code[j] and
code[j+1] agree on (offset, field_offset), code[j] is erased (the source
additionally asserts equal widths) and i is not advanced. -/
def strimLoop : Nat → List Stmt → Nat → List Stmt
  | 0, code, _ => code
  | fuel + 1, code, i =>
      if i < code.length then
        if (stGet (strimBubble code (i - 1)).1 (strimBubble code (i - 1)).2).t.offset =
             (stGet (strimBubble code (i - 1)).1 ((strimBubble code (i - 1)).2 + 1)).t.offset ∧
           (stGet (strimBubble code (i - 1)).1 (strimBubble code (i - 1)).2).t.field_offset =
             (stGet (strimBubble code (i - 1)).1 ((strimBubble code (i - 1)).2 + 1)).t.field_offset then
          strimLoop fuel ((strimBubble code (i - 1)).1.eraseIdx (strimBubble code (i - 1)).2) i
        else
          strimLoop fuel (strimBubble code (i - 1)).1 (i + 1)
      else code

/-- sort_and_trim(values): reorder initializer assignments to increasing
offsets and remove duplicate assignments (in-place insertion sort in the
source). -/
def sort_and_trim (values : List Stmt) : List Stmt :=
  strimLoop values.length values 1

/-- Loop of postprocess_object_initialization over the sorted statement
list: pad before each assignment, append it, and advance the cursor
(bit-field slices advance the bit position, rounding to the next storage
unit when it is filled; whole-word writes advance the byte offset and
reset bit tracking).  Returns the emitted list, the final cursor and the
final bit-field storage size. -/
def ppLoop : List Stmt → Var → Nat → List Stmt × Var × Nat
  | [], target, bfs => ([], target, bfs)
  | s :: rest, target, bfs =>
      let field := s.t
      let pad := initialize_padding target field
      let next :=
        if field.field_width ≠ 0 then
          let bfs := if size_of field.ty > bfs then size_of field.ty else bfs
          let fo := field.field_offset + field.field_width
          if fo = bfs * 8 then
            ({ target with ty := field.ty, offset := field.offset + (bfs : Int),
                           field_offset := 0, field_width := 0 }, bfs)
          else
            ({ target with ty := field.ty, offset := field.offset,
                           field_offset := fo, field_width := 0 }, bfs)
        else
          ({ target with ty := field.ty, offset := field.offset + (size_of field.ty : Int),
                         field_offset := 0, field_width := 0 }, 0)
      let r := ppLoop rest next.1 next.2
      (pad ++ s :: r.1, r.2)

/-- postprocess_object_initialization(def, values, target): sort and
dedupe, then walk the assignments inserting padding, then fill trailing
padding up to the size of the root type.  On the first iteration the
source copies the first field's type into the cursor before padding,
modelled by priming the cursor type. -/
def postprocess_object_initialization (values : List Stmt) (target : Var) : List Stmt :=
  let values := sort_and_trim values
  let total_size := size_of target.ty
  let target :=
    match values with
    | [] => target
    | s :: _ => { target with ty := s.t.ty }
  let r := ppLoop values target 0
  r.1 ++ initialize_trailing_padding r.2.1 total_size r.2.2

/-!
Parser-facing state and the external collaborators.

One parse state bundles what the source threads through the recursion:
the token stream, the pending expression of the current block together
with its has_init_value flag (an Option), the statements of the caller's
ordinary block (casts, lifted calls), the statements of the current
values block, and the recorded array length patch of the owning symbol's
type (set_array_length mutates the shared type data; the model records
the patch explicitly, and reads of the symbol's array size go through
it).
-/

/-- Fatal errors of the engine (the source reports and exits), plus the
model-only outcomes: exhausted fuel, an out-of-bounds member read that
the source would perform unchecked, and a failed source assertion. -/
inductive Err where
  | voidValue          /- Cannot initialize with void value. -/
  | loadtime           /- Initializer must be computable at load time. -/
  | noMember           /- T has no member named X. -/
  | arrayDesignator    /- Array designator must have integer value. -/
  | flexibleMember     /- Invalid initialization of flexible array member. -/
  | zeroType           /- Cannot zero-initialize object of type T. -/
  | mismatch (t : Tok) /- consume() on an unexpected token. -/
  | fuel
  | outOfBounds
  | assertFailed
deriving DecidableEq

/-- Diagnostic text of the source's fatal errors. -/
def errorText : Err → String
  | .voidValue => "Cannot initialize with void value."
  | .loadtime => "Initializer must be computable at load time."
  | .noMember => "T has no member named X."
  | .arrayDesignator => "Array designator must have integer value."
  | .flexibleMember => "Invalid initialization of flexible array member."
  | .zeroType => "Cannot zero-initialize object of type T."
  | .mismatch _ => "Unexpected token."
  | .fuel => ""
  | .outOfBounds => ""
  | .assertFailed => ""

/-- The parse state threaded through the engine. -/
structure St where
  toks : List Tok
  pending : Option ExprM
  block : List Stmt
  values : List Stmt
  patched : Option Nat

abbrev Res := Except Err St

/-- Result of assignment_expression(def, block): the parsed expression,
the remaining tokens, the statements it appended to the block, and
whether it returned the same block it was given. -/
structure AERes where
  expr : ExprM
  toks : List Tok
  stmts : List Stmt
  sameBlock : Bool

/-- Result of constant_expression() for an array designator index: the
remaining tokens, whether the value has integer type, and the value. -/
structure CERes where
  isInt : Bool
  val : Nat
  toks : List Tok

/-- Result of eval_assign(def, block, target, expr): conversion
statements appended before the assignment, and the (possibly converted)
expression stored by the IR_ASSIGN. -/
structure EARes where
  casts : List Stmt
  expr : ExprM

/-- The external collaborators: the expression parser, the constant
expression evaluator, the IR assignment emitter's conversion behaviour,
and the type tree's unqualified compatibility test. -/
structure Oracles where
  ae : List Tok → AERes
  ce : List Tok → CERes
  ea : Var → ExprM → EARes
  compat : Ty → Ty → Bool

/-- consume(token): advance past the expected token or fail. -/
def consumeTok (t : Tok) (st : St) : Res :=
  if peek st.toks = t then .ok { st with toks := st.toks.drop 1 }
  else .error (.mismatch (peek st.toks))

/-- The temporary variable create_var allocates to hold a call result
(its position within the definition is irrelevant to the claims). -/
def tmpVar (ty : Ty) : Var :=
  { offset := 0, field_offset := 0, field_width := 0, ty := ty }

/-- as_expr(tmp): identity reference to the temporary. -/
def tmpExpr (ty : Ty) : ExprM :=
  { op := .id, ty := ty, lkind := .DIRECT, l_linkage := false, l_literal := false }

/-- read_initializer_element(def, block, sym): read one assignment
expression into the pending slot.  sym_linkage tells whether the owning
symbol's linkage differs from LINK_NONE.  With linkage the result must
be a load-time constant produced without emitting statements or leaving
the block; without linkage a call result is materialised into a fresh
temporary so post-processing may reorder assignments. -/
def read_initializer_element (O : Oracles) (sym_linkage : Bool) (st : St) : Res :=
  match st.pending with
  | some _ => .error .assertFailed
  | none =>
    if is_void (O.ae st.toks).expr.ty then .error .voidValue
    else if sym_linkage then
      if ¬ (O.ae st.toks).sameBlock ∨ 0 < (O.ae st.toks).stmts.length ∨
         ¬ is_identity (O.ae st.toks).expr ∨ ¬ is_loadtime_constant (O.ae st.toks).expr
      then .error .loadtime
      else .ok { st with toks := (O.ae st.toks).toks,
                         block := st.block ++ (O.ae st.toks).stmts,
                         pending := some (O.ae st.toks).expr }
    else if (O.ae st.toks).expr.op = .call then
      .ok { st with
              toks := (O.ae st.toks).toks
              block := st.block ++ (O.ae st.toks).stmts ++
                [{ t := tmpVar (O.ae st.toks).expr.ty, expr := (O.ae st.toks).expr }]
              pending := some (tmpExpr (O.ae st.toks).expr.ty) }
    else
      .ok { st with toks := (O.ae st.toks).toks,
                    block := st.block ++ (O.ae st.toks).stmts,
                    pending := some (O.ae st.toks).expr }

/-- assign_initializer_element(def, block, values, target): emit the
assignment of the pending expression to the target; eval_assign's
conversion statements stay in the ordinary block while the popped
IR_ASSIGN moves to the values block. -/
def assign_initializer_element (O : Oracles) (target : Var) (st : St) : Res :=
  match st.pending with
  | none => .error .assertFailed
  | some e =>
      let r := O.ea target e
      .ok { st with
              block := st.block ++ r.casts
              values := st.values ++ [{ t := target, expr := r.expr }]
              pending := none }

/-!
The recursive engine.  Each source function that recurses through
initialize_member is modelled by a Lean function taking the recursive
entry as a parameter (im); the fuel-indexed dispatcher `engine` ties the
knot.  Loops carry explicit fuel (the source loops consume tokens, which
the oracles are not forced to do, so termination is by fuel and an
exhausted-fuel run reports Err.fuel rather than a result).
-/

/-- Walk of the member-skipping while loop of initialize_struct over the
remaining member suffix: return the first member (with the index just
past it) whose byte offset or bit-field offset differs from the previous
member's; with no previous member the first member is taken.  Running
off the end (where the source would read out of bounds) gives none. -/
def skipGo : List Memb → Option Memb → Nat → Option (Memb × Nat)
  | [], _, _ => none
  | m :: rest, prev, i =>
      match prev with
      | none => some (m, i + 1)
      | some p =>
          if p.off ≠ m.off ∨ p.fo ≠ m.fo then some (m, i + 1)
          else skipGo rest prev (i + 1)

/-- The member-skipping loop of initialize_struct (lines 282-289 of the
source), starting at index i. -/
def skip_members (ms : List Memb) (prev : Option Memb) (i : Nat) : Option (Memb × Nat) :=
  skipGo (ms.drop i) prev i

/-- try_parse_index(&index): parse an optional [constant-expression]
array designator; a non-integer index is fatal. -/
def try_parse_index (O : Oracles) (st : St) : Except Err (Option Nat × St) :=
  if peek st.toks = .lbrack then
    if ¬ (O.ce (st.toks.drop 1)).isInt then .error .arrayDesignator
    else if peek (O.ce (st.toks.drop 1)).toks = .rbrack then
      .ok (some (O.ce (st.toks.drop 1)).val,
           { st with toks := (O.ce (st.toks.drop 1)).toks.drop 1 })
    else .error (.mismatch (peek (O.ce (st.toks.drop 1)).toks))
  else .ok (none, st)

/-- The designated-member parse shared by the union and struct walks:
consume the dot, require an identifier, look the member up
(get_named_member fails fatally on unknown names), and consume an
optional =.  Returns the member, its index, and the advanced state. -/
def parse_member_designator (type : Ty) (st : St) : Except Err (Memb × Nat × St) :=
  match peek (st.toks.drop 1) with
  | .ident name =>
    match find_type_member type name with
    | none => .error .noMember
    | some (m, idx) =>
      if peek (st.toks.drop 2) = .assign then
        .ok (m, idx, { st with toks := st.toks.drop 3 })
      else
        .ok (m, idx, { st with toks := st.toks.drop 2 })
  | t => .error (.mismatch t)

/-- Loop of initialize_union.  Each iteration rebinds the target to the
designated member (or, on the first iteration only, to member 0),
empties the scratch block and initializes the member into it; the loop
continues only while next_element reports a continuation, and a
positional element after the first iteration breaks out.  The caller's
values stream is untouched; each im call runs on an empty values block
and its output is that iteration's arm.  The returned transcript (one
entry (designated, member index, arm) per iteration) is
specification-only bookkeeping. -/
def union_loop (im : Var → St → Res) :
    Nat → Ty → Int → Var → CObjState → Bool → List Stmt →
    List (Bool × Nat × List Stmt) → St → Except Err (St × List Stmt × List (Bool × Nat × List Stmt))
  | 0, _, _, _, _, _, _, _, _ => .error .fuel
  | fuel + 1, type, filled, target, state, done, lastArm, tr, st =>
    if peek st.toks = .dot then
      match parse_member_designator type st with
      | .error e => .error e
      | .ok (m, idx, st3) =>
        let target1 := access_member target m filled
        match im target1 { st3 with values := [] } with
        | .error e => .error e
        | .ok st4 =>
          let arm := st4.values
          let st5 : St := { st4 with values := st.values }
          let tr1 := tr ++ [(true, idx, arm)]
          let ne := next_element state st5.toks
          if ne.1 then
            union_loop im fuel type filled target1 state true arm tr1 { st5 with toks := ne.2 }
          else .ok ({ st5 with toks := ne.2 }, arm, tr1)
    else if ¬ done then
      match get_member type 0 with
      | none => .error .assertFailed
      | some m =>
        let target1 := access_member target m filled
        match im target1 { st with values := [] } with
        | .error e => .error e
        | .ok st4 =>
          let arm := st4.values
          let st5 : St := { st4 with values := st.values }
          let tr1 := tr ++ [(false, 0, arm)]
          let ne := next_element state st5.toks
          if ne.1 then
            union_loop im fuel type filled target1 state true arm tr1 { st5 with toks := ne.2 }
          else .ok ({ st5 with toks := ne.2 }, arm, tr1)
    else .ok (st, lastArm, tr)

/-- initialize_union(def, block, values, target, state): run the loop
with a scratch block, then concatenate only the surviving arm onto the
caller's values stream.  Also returns the specification-only
transcript. -/
def initialize_union (im : Var → St → Res) (fuel : Nat) (target : Var) (state : CObjState)
    (st : St) : Except Err (St × List (Bool × Nat × List Stmt)) :=
  if ¬ is_union target.ty ∨ nmembers target.ty = 0 then .error .assertFailed
  else
    match union_loop im fuel target.ty target.offset target state false [] [] st with
    | .error e => .error e
    | .ok (st', arm, tr) => .ok ({ st' with values := st'.values ++ arm }, tr)

/-- Loop of initialize_struct: designated elements rebind the target by
name (resynchronising the index), positional elements take the next
member that does not overlap the previous one's storage, and the loop
ends when the members run out or next_element reports no
continuation. -/
def struct_loop (im : Var → St → Res) :
    Nat → Ty → List Memb → Nat → Int → Var → CObjState → Option Memb → Nat → St → Res
  | 0, _, _, _, _, _, _, _, _, _ => .error .fuel
  | fuel + 1, type, ms, m, filled, target, state, prev, i, st =>
    if st.pending.isNone ∧ peek st.toks = .dot then
      match parse_member_designator type st with
      | .error e => .error e
      | .ok (mem, idx, st3) =>
        let target1 := access_member target mem filled
        match im target1 st3 with
        | .error e => .error e
        | .ok st4 =>
          let ne := next_element state st4.toks
          if ne.1 then
            struct_loop im fuel type ms m filled target1 state (some mem) (idx + 1) { st4 with toks := ne.2 }
          else .ok { st4 with toks := ne.2 }
    else
      match skip_members ms prev i with
      | none => .error .outOfBounds
      | some (mem, i') =>
        let target1 := access_member target mem filled
        match im target1 st with
        | .error e => .error e
        | .ok st4 =>
          if m ≤ i' then .ok st4
          else
            let ne := next_element state st4.toks
            if ne.1 then
              struct_loop im fuel type ms m filled target1 state (some mem) i' { st4 with toks := ne.2 }
            else .ok { st4 with toks := ne.2 }

/-- initialize_struct(def, block, values, target, state). -/
def initialize_struct (im : Var → St → Res) (fuel : Nat) (target : Var) (state : CObjState)
    (st : St) : Res :=
  if ¬ is_struct target.ty ∨ nmembers target.ty = 0 then .error .assertFailed
  else
    struct_loop im fuel target.ty (membersOf target.ty) (nmembers target.ty) target.offset
      { target with lvalue := true } state none 0 st

/-- The speculative first read shared by initialize_struct_or_union and
initialize_array (read an element unless one is pending or a designator
or brace is next), used to catch whole-object assignment and string
literals. -/
def read_first_element (O : Oracles) (sym_linkage : Bool) (st : St) : Res :=
  if st.pending.isNone then
    match peek st.toks with
    | .dot => .ok st
    | .lbrace => .ok st
    | .lbrack => .ok st
    | _ => read_initializer_element O sym_linkage st
  else .ok st

/-- initialize_struct_or_union(def, block, values, target, state): read
the first element when possible to catch whole-aggregate assignment of a
compatible value; otherwise dispatch to the union or struct walk. -/
def initialize_struct_or_union (im : Var → St → Res) (O : Oracles) (sym_linkage : Bool)
    (fuel : Nat) (target : Var) (state : CObjState) (st : St) : Res :=
  if ¬ is_struct_or_union target.ty ∨ nmembers target.ty = 0 then .error .assertFailed
  else
    match read_first_element O sym_linkage st with
    | .error e => .error e
    | .ok st1 =>
      match st1.pending with
      | some e =>
        if O.compat target.ty e.ty then
          let r := O.ea target e
          .ok { st1 with
                  values := st1.values ++ r.casts ++ [{ t := target, expr := r.expr }],
                  pending := none }
        else if is_union target.ty then (initialize_union im fuel target state st1).map (·.1)
        else initialize_struct im fuel target state st1
      | none =>
        if is_union target.ty then (initialize_union im fuel target state st1).map (·.1)
        else initialize_struct im fuel target state st1

/-- The high-water update of the array walk: c = i > c ? i : c with
i = i0 + 1 (that is, max c (i0 + 1)). -/
def bump (c i0 : Nat) : Nat := if c < i0 + 1 then i0 + 1 else c

/-- One iteration of the array element loop after the designator parse:
write the element at initial + i0 * width, bump the index and the
high-water mark, and continue (through rec) while the array probe
reports a continuation, stopping early when positional writing reaches a
known count.  The returned list of written indices is specification-only
bookkeeping. -/
def array_step (im : Var → St → Res)
    (rec : Int → Nat → Nat → CObjState → Var → Nat → Nat → List Nat → St →
      Except Err (St × Nat × List Nat))
    (initial : Int) (width count : Nat) (state : CObjState) (target : Var)
    (i0 : Nat) (st2 : St) (c : Nat) (tr0 : List Nat) : Except Err (St × Nat × List Nat) :=
  match im { target with offset := initial + (i0 : Int) * (width : Int) } st2 with
  | .error e => .error e
  | .ok st3 =>
      if (has_next_array_element state st3.toks).1 then
        if ¬ (has_next_array_element state st3.toks).2 ∧ count ≠ 0 ∧
           count ≤ bump c i0 then
          .ok (st3, bump c i0, tr0 ++ [i0])
        else
          match consumeTok .comma st3 with
          | .error e => .error e
          | .ok st4 =>
              rec initial width count state
                { target with offset := initial + (i0 : Int) * (width : Int) }
                (i0 + 1) (bump c i0) (tr0 ++ [i0]) st4
      else .ok (st3, bump c i0, tr0 ++ [i0])

/-- Loop of initialize_array: parse an optional [index] designator
(with an optional = only after a parsed index), then run one element
step. -/
def array_loop (im : Var → St → Res) (O : Oracles) :
    Nat → Int → Nat → Nat → CObjState → Var → Nat → Nat → List Nat → St →
    Except Err (St × Nat × List Nat)
  | 0, _, _, _, _, _, _, _, _, _ => .error .fuel
  | fuel + 1, initial, width, count, state, target, i, c, tr, st =>
    match try_parse_index O st with
    | .error e => .error e
    | .ok (some v, st1) =>
        array_step im (array_loop im O fuel) initial width count state target v
          (if peek st1.toks = .assign then { st1 with toks := st1.toks.drop 1 } else st1) c tr
    | .ok (none, st1) =>
        array_step im (array_loop im O fuel) initial width count state target i st1 c tr

/-- The string-literal shortcut test of initialize_array: a pending
identity expression that is a direct reference to a symbol of literal
kind with array type, assigned to a character array. -/
def string_literal_case (elem : Ty) (p : Option ExprM) : Bool :=
  match p with
  | some e => is_char elem && is_identity e && is_array e.ty &&
      (if e.lkind = .DIRECT then true else false) && e.l_literal
  | none => false

/-- The body of initialize_array after the speculative read: either the
whole-array string-literal assignment, or the elementwise loop.
Modelled from the spec (eval.c is outside the verified sources):
eval_assign narrows the assignment's target to the literal's array type,
so that post-processing zero-fills the bytes behind the literal (source
comment lines 399-407), and patches the length of an incomplete target
to the literal's length.  Returns the state, the high-water mark c and
the written indices. -/
def array_run (im : Var → St → Res) (O : Oracles) (fuel : Nat) (target : Var)
    (state : CObjState) (st1 : St) : Except Err (St × Nat × List Nat) :=
  if string_literal_case (type_next target.ty) st1.pending then
    match st1.pending with
    | some e =>
      .ok ({ st1 with
               values := st1.values ++ [{ t := { target with ty := e.ty }, expr := e }],
               pending := none,
               patched := if size_of target.ty = 0 then some (type_array_len e.ty)
                          else st1.patched },
           0, [])
    | none => .error .assertFailed
  else
    array_loop im O fuel target.offset (size_of (type_next target.ty))
      (type_array_len target.ty) state { target with ty := type_next target.ty } 0 0 [] st1

/-- The final size check of initialize_array: when the array type still
has size 0 (reads of the owning symbol's array size go through the
recorded patch, since set_array_length mutates the shared type data),
set_array_length records the high-water mark c. -/
def array_patch (target : Var) (st2 : St) (c : Nat) (tr : List Nat) :
    Except Err (St × List Nat) :=
  if (if size_of target.ty = 0 then
        (match st2.patched with
         | some len => len * size_of (type_next target.ty)
         | none => 0)
      else size_of target.ty) = 0 then
    .ok ({ st2 with patched := some c }, tr)
  else .ok (st2, tr)

/-- initialize_array(def, block, values, target, state): speculative
first read, string-literal shortcut or elementwise walk, then the
flexible-length patch.  Also returns the specification-only list of
written indices (empty on the string path). -/
def initialize_array (im : Var → St → Res) (O : Oracles) (sym_linkage : Bool) (fuel : Nat)
    (target : Var) (state : CObjState) (st : St) : Except Err (St × List Nat) :=
  if ¬ is_array target.ty then .error .assertFailed
  else
    match read_first_element O sym_linkage st with
    | .error e => .error e
    | .ok st1 =>
      match array_run im O fuel target state st1 with
      | .error e => .error e
      | .ok (st2, c, tr) => array_patch target st2 c tr

/-- The optional trailing comma before a closing brace:
if (peek().token == ',') next(). -/
def skip_comma (st : St) : St :=
  if peek st.toks = .comma then { st with toks := st.toks.drop 1 } else st

/-- The scalar element read of initialize_member: read one element,
optionally wrapped in a brace pair, unless an expression is pending. -/
def read_scalar_element (O : Oracles) (sym_linkage : Bool) (st : St) : Res :=
  if st.pending.isNone then
    if peek st.toks = .lbrace then
      match read_initializer_element O sym_linkage { st with toks := st.toks.drop 1 } with
      | .error e => .error e
      | .ok st1 => consumeTok .rbrace st1
    else read_initializer_element O sym_linkage st
  else .ok st

/-- initialize_member(def, block, values, target): recursive entry for
any sub-object; struct/union and array targets use braces when present
(state CURRENT) and brace elision otherwise (state DESIGNATOR); flexible
array members are fatal; scalars read one element (optionally in
braces) and emit its assignment. -/
def initialize_member (rsou rarr : Var → CObjState → St → Res) (O : Oracles)
    (sym_linkage : Bool) (target : Var) (st : St) : Res :=
  if is_struct_or_union target.ty then
    if st.pending.isNone ∧ peek st.toks = .lbrace then
      match rsou target .CURRENT { st with toks := st.toks.drop 1 } with
      | .error e => .error e
      | .ok st1 => consumeTok .rbrace (skip_comma st1)
    else rsou target .DESIGNATOR st
  else if is_array target.ty then
    if size_of target.ty = 0 then .error .flexibleMember
    else if st.pending.isNone ∧ peek st.toks = .lbrace then
      match rarr target .CURRENT { st with toks := st.toks.drop 1 } with
      | .error e => .error e
      | .ok st1 => consumeTok .rbrace (skip_comma st1)
    else rarr target .DESIGNATOR st
  else
    match read_scalar_element O sym_linkage st with
    | .error e => .error e
    | .ok st1 => assign_initializer_element O target st1

/-- initialize_object(def, block, values, target): the outermost
dispatch below the public entry; handles the outer brace pair (state
CURRENT), arrays without braces (state MEMBER), and plain scalars. -/
def initialize_object (rsou rarr : Var → CObjState → St → Res) (rself : Var → St → Res)
    (O : Oracles) (sym_linkage : Bool) (target : Var) (st : St) : Res :=
  if ¬ st.pending.isNone then .error .assertFailed
  else if peek st.toks = .lbrace then
    match (if is_struct_or_union target.ty then
             rsou target .CURRENT { st with toks := st.toks.drop 1 }
           else if is_array target.ty then
             rarr target .CURRENT { st with toks := st.toks.drop 1 }
           else rself target { st with toks := st.toks.drop 1 }) with
    | .error e => .error e
    | .ok st1 => consumeTok .rbrace (skip_comma st1)
  else if is_array target.ty then rarr target .MEMBER st
  else
    match read_initializer_element O sym_linkage st with
    | .error e => .error e
    | .ok st1 => assign_initializer_element O target st1

/-- The two mutually recursive entries of the engine. -/
inductive Call where
  | member (target : Var)
  | obj (target : Var)

/-- Fuel-indexed dispatcher tying the recursion of the engine together:
initialize_member and initialize_object recurse through
initialize_struct_or_union, initialize_array and themselves. -/
def engine (O : Oracles) (sym_linkage : Bool) : Nat → Call → St → Res
  | 0, _, _ => .error .fuel
  | fuel + 1, .member target, st =>
      initialize_member
        (fun t s stx =>
          initialize_struct_or_union (fun t' st' => engine O sym_linkage fuel (.member t') st')
            O sym_linkage fuel t s stx)
        (fun t s stx =>
          (initialize_array (fun t' st' => engine O sym_linkage fuel (.member t') st')
            O sym_linkage fuel t s stx).map (·.1))
        O sym_linkage target st
  | fuel + 1, .obj target, st =>
      initialize_object
        (fun t s stx =>
          initialize_struct_or_union (fun t' st' => engine O sym_linkage fuel (.member t') st')
            O sym_linkage fuel t s stx)
        (fun t s stx =>
          (initialize_array (fun t' st' => engine O sym_linkage fuel (.member t') st')
            O sym_linkage fuel t s stx).map (·.1))
        (fun t stx => engine O sym_linkage fuel (.obj t) stx)
        O sym_linkage target st

/-- The owning symbol: its linkage (whether it differs from LINK_NONE)
and its type. -/
structure SymM where
  linkage : Bool
  ty : Ty

/-- var_direct(sym): the root target of the initializer. -/
def var_direct (sym : SymM) : Var :=
  { offset := 0, field_offset := 0, field_width := 0, ty := sym.ty }

/-- initializer(def, block, sym), the public entry: with braces or an
array target, collect assignments into a fresh values buffer, recurse,
post-process and concatenate onto the caller's block; otherwise read and
emit a single scalar assignment directly.  The root type handed to the
post-processor is read through the recorded array-length patch, since in
the source set_array_length has by then mutated the shared type data of
an initially incomplete array. -/
def initializer (O : Oracles) (fuel : Nat) (sym : SymM) (st : St) : Res :=
  if peek st.toks = .lbrace ∨ is_array sym.ty then
    match engine O sym.linkage fuel (.obj (var_direct sym)) { st with values := [] } with
    | .error e => .error e
    | .ok st1 =>
      .ok { st1 with
              block := st1.block ++
                postprocess_object_initialization st1.values
                  { var_direct sym with ty :=
                      match st1.patched with
                      | some len =>
                          if size_of sym.ty = 0 then .t_array (type_next sym.ty) len
                          else sym.ty
                      | none => sym.ty },
              values := [] }
  else
    match read_initializer_element O sym.linkage st with
    | .error e => .error e
    | .ok st1 =>
      match st1.pending with
      | some e =>
        .ok { st1 with
                block := st1.block ++ (O.ea (var_direct sym) e).casts ++
                  [{ t := var_direct sym, expr := (O.ea (var_direct sym) e).expr }],
                pending := none }
      | none => .error .assertFailed

/-! Specification-side predicates used to state the claims. -/

/-- Strict sortedness by the key (offset, field_offset), the order the
specification claims for the post-processed buffer. -/
def sorted_by_offset_field : List Stmt → Bool
  | [] => true
  | [_] => true
  | a :: b :: rest =>
      (if a.t.offset < b.t.offset ∨
          (a.t.offset = b.t.offset ∧ a.t.field_offset < b.t.field_offset)
       then true else false) && sorted_by_offset_field (b :: rest)

/-- The emitted store list is byte-contiguous starting at the given
offset: each store begins exactly where the previous one ended. -/
def contiguousFromB : Int → List Stmt → Bool
  | _, [] => true
  | off, s :: rest =>
      (if s.t.offset = off then true else false) && contiguousFromB (off + (size_of s.t.ty : Int)) rest

/-- The largest power-of-two store size that is at most 8 and fits in n
remaining bytes — the step rule the specification claims for
zero_initialize_bytes. -/
def largest_fit (n : Nat) : Nat :=
  if 8 ≤ n then 8 else if 4 ≤ n then 4 else if 2 ≤ n then 2 else 1

/-!
Concrete assignment buffer produced by the engine for

    struct { int a : 3; int b : 5; } x = { .b = 2, .a = 1 };

The struct walk handles the two designators in source order, so the
values buffer holds first the write to b (offset 0, field_offset 3,
field_width 5, type int), then the write to a (offset 0, field_offset 0,
field_width 3, type int).
-/

/-- The designated write x.b = 2 (offset 0, bit 3, width 5). -/
def bfWriteB : Stmt :=
  { t := { offset := 0, field_offset := 3, field_width := 5, ty := .t_int },
    expr := zeroExpr .t_int }

/-- The designated write x.a = 1 (offset 0, bit 0, width 3). -/
def bfWriteA : Stmt :=
  { t := { offset := 0, field_offset := 0, field_width := 3, ty := .t_int },
    expr := zeroExpr .t_int }

/-- The root target for the 4-byte struct of the two bit-fields. -/
def bfRoot : Var :=
  { offset := 0, field_offset := 0, field_width := 0,
    ty := .t_struct 4 [(0, 0, 0, 3, .t_int), (1, 0, 3, 5, .t_int)] }

/-- The specification's wording of a load-time constant: an identity
expression that is an immediate constant, or an address of a symbol with
linkage, or a direct reference to an array or function of a symbol with
linkage. -/
def loadtime_spec (e : ExprM) : Prop :=
  is_identity e = true ∧
    (e.lkind = .IMMEDIATE ∨
     (e.lkind = .ADDRESS ∧ e.l_linkage = true) ∨
     (e.lkind = .DIRECT ∧ (is_array e.ty = true ∨ is_function e.ty = true) ∧ e.l_linkage = true))

instance (e : ExprM) : Decidable (loadtime_spec e) := by
  unfold loadtime_spec
  infer_instance

/-- An identity immediate int expression. -/
def immIntExpr : ExprM :=
  { op := .id, ty := .t_int, lkind := .IMMEDIATE, l_linkage := false, l_literal := false }

/-- An expression parser outcome that yields an immediate constant but
also emitted one statement into the block while parsing. -/
def c6Oracle : Oracles :=
  { ae := fun ts => { expr := immIntExpr, toks := ts, stmts := [dummyStmt], sameBlock := true },
    ce := fun ts => { isInt := true, val := 0, toks := ts },
    ea := fun _ e => { casts := [], expr := e },
    compat := fun _ _ => false }

/-- An empty parse state. -/
def emptySt : St := { toks := [], pending := none, block := [], values := [], patched := none }

/-- A call expression of int type. -/
def callExpr : ExprM :=
  { op := .call, ty := .t_int, lkind := .DIRECT, l_linkage := false, l_literal := false }

/-- An expression parser outcome that yields a call. -/
def c7Oracle : Oracles :=
  { ae := fun ts => { expr := callExpr, toks := ts, stmts := [], sameBlock := true },
    ce := fun ts => { isInt := true, val := 0, toks := ts },
    ea := fun _ e => { casts := [], expr := e },
    compat := fun _ _ => false }

/-- Projection of a successful run's state (default for errors). -/
def resSt : Res → St
  | .ok s => s
  | .error _ => emptySt

/-- Members of a struct with an embedded anonymous union: a at offset 0,
b and c overlapping at offset 4, d at offset 8. -/
def overlapMembers : List Memb :=
  [(0, 0, 0, 0, .t_int), (1, 4, 0, 0, .t_int), (2, 4, 0, 0, .t_int), (3, 8, 0, 0, .t_int)]

/-- The member b of overlapMembers. -/
def membB : Memb := (1, 4, 0, 0, .t_int)

/-- The member d of overlapMembers. -/
def membD : Memb := (3, 8, 0, 0, .t_int)

/-- A two-member int union target (members x and y at offset 0). -/
def c5Target : Var :=
  { offset := 0, field_offset := 0, field_width := 0,
    ty := .t_union 4 [(0, 0, 0, 0, .t_int), (1, 0, 0, 0, .t_int)] }

/-- A concrete member initializer: consume one token and append one
assignment to the values block, clearing any pending expression. -/
def c5Im : Var → St → Res := fun t s =>
  .ok { s with toks := s.toks.drop 1,
               values := s.values ++ [{ t := t, expr := zeroExpr t.ty }],
               pending := none }

/-- Tokens of the union initializer body .y = <value> } (the braces are
handled by the caller). -/
def c5St : St :=
  { toks := [.dot, .ident 1, .assign, .other, .rbrace],
    pending := none, block := [], values := [], patched := none }

/-- Projection of a successful union run's state. -/
def resUSt (r : Except Err (St × List (Bool × Nat × List Stmt))) : St :=
  match r with
  | .ok (s, _) => s
  | .error _ => emptySt

/-- Projection of a successful union run's transcript. -/
def resUTr (r : Except Err (St × List (Bool × Nat × List Stmt))) :
    List (Bool × Nat × List Stmt) :=
  match r with
  | .ok (_, t) => t
  | .error _ => []

/-- An expression parser outcome that consumes one token and yields an
immediate int constant, with designator indices read from ident
tokens. -/
def immOracle : Oracles :=
  { ae := fun ts => { expr := immIntExpr, toks := ts.drop 1, stmts := [], sameBlock := true },
    ce := fun ts =>
      match ts.headD .eof with
      | .ident n => { isInt := true, val := n, toks := ts.drop 1 }
      | _ => { isInt := false, val := 0, toks := ts },
    ea := fun _ e => { casts := [], expr := e },
    compat := fun _ _ => false }

/-- An incomplete (flexible-length) int array target. -/
def flexIntArray : Var :=
  { offset := 0, field_offset := 0, field_width := 0, ty := .t_array .t_int 0 }

/-- A concrete member initializer for array elements: consume the
pending expression if one is queued (else one token), append one
assignment. -/
def arrayIm : Var → St → Res := fun t s =>
  .ok { s with toks := if s.pending.isSome then s.toks else s.toks.drop 1,
               values := s.values ++ [{ t := t, expr := zeroExpr t.ty }],
               pending := none }

/-- Two positional elements for the flexible array. -/
def c9St : St :=
  { toks := [.other, .comma, .other], pending := none, block := [], values := [], patched := none }

/-- Projection of a successful array run's state. -/
def resASt (r : Except Err (St × List Nat)) : St :=
  match r with
  | .ok (s, _) => s
  | .error _ => emptySt

/-- Projection of a successful array run's written indices. -/
def resATr (r : Except Err (St × List Nat)) : List Nat :=
  match r with
  | .ok (_, t) => t
  | .error _ => []

theorem zib_size_pos (bytes : Nat) : 0 < zib_size bytes := by
  unfold zib_size
  split
  · omega
  · split
    · omega
    · split <;> omega

theorem size_of_zib_ty (bytes : Nat) : size_of (zib_ty bytes) = zib_size bytes := by
  unfold zib_size zib_ty
  split
  · rfl
  · split
    · rfl
    · split <;> rfl

theorem zib_size_le (bytes : Nat) (h : bytes ≠ 0) : zib_size bytes ≤ bytes := by
  unfold zib_size
  have h8 : bytes % 8 ≤ bytes := Nat.mod_le _ _
  split
  · next h0 => omega
  · split
    · omega
    · split <;> omega

theorem zibF_congr : ∀ f₁ f₂ bytes : Nat, ∀ off : Int, bytes ≤ f₁ → bytes ≤ f₂ →
    zibF f₁ off bytes = zibF f₂ off bytes := by
  intro f₁
  induction f₁ with
  | zero =>
    intro f₂ bytes off h₁ _
    interval_cases bytes
    cases f₂ <;> simp [zibF]
  | succ g ih =>
    intro f₂ bytes off h₁ h₂
    by_cases hb : bytes = 0
    · subst hb
      cases f₂ <;> simp [zibF]
    · obtain ⟨g₂, rfl⟩ : ∃ g₂, f₂ = g₂ + 1 := ⟨f₂ - 1, by omega⟩
      simp only [zibF, hb, if_false]
      refine congrArg _ (ih g₂ _ _ ?_ ?_) <;>
        · have := zib_size_pos bytes
          omega

/-- One-step unfolding of the zero-fill loop. -/
theorem zib_unfold (off : Int) (bytes : Nat) :
    zib off bytes =
      if bytes = 0 then []
      else
        { t := { offset := off, field_offset := 0, field_width := 0, ty := zib_ty bytes },
          expr := zeroExpr (zib_ty bytes) } :: zib (off + (zib_size bytes : Int)) (bytes - zib_size bytes) := by
  unfold zib
  cases hb : bytes with
  | zero => simp [zibF]
  | succ b =>
    simp only [Nat.succ_ne_zero, if_false, zibF]
    refine congrArg _ (zibF_congr _ _ _ _ ?_ ?_) <;>
      · have := zib_size_pos (b + 1)
        omega

/-- C4: phase 1 compares offsets only, so the buffer for
{ .b = 2, .a = 1 } comes out of sort_and_trim still ordered (0,3) before
(0,0): it is not sorted by (offset, field_offset) as the claim states,
contradicting the invariant the source itself asserts in
validate_initializer_block. -/
theorem c4_sort_and_trim_ignores_field_offset :
    (sort_and_trim [bfWriteB, bfWriteA]).map (fun s => (s.t.offset, s.t.field_offset)) =
      [(0, 3), (0, 0)] ∧
    sorted_by_offset_field (sort_and_trim [bfWriteB, bfWriteA]) = false := by
  constructor
  · rfl
  · rfl

/-- C1: on the same accepted initializer the post-processed buffer
violates every part of the claimed invariant chain: it is not sorted by
(offset, field_offset), consecutive assignments are not adjacent, the
trailing zero-fill overlaps the explicit write to b, and the source's
own debug validator rejects it. -/
theorem c1_postprocess_violates_invariant :
    (postprocess_object_initialization [bfWriteB, bfWriteA] bfRoot).map
        (fun s => (s.t.offset, s.t.field_offset, s.t.field_width)) =
      [(0, 0, 3), (0, 3, 5), (0, 0, 3), (0, 3, 29)] ∧
    sorted_by_offset_field (postprocess_object_initialization [bfWriteB, bfWriteA] bfRoot) = false ∧
    validate_initializer_block (postprocess_object_initialization [bfWriteB, bfWriteA] bfRoot) = false := by
  refine ⟨?_, ?_, ?_⟩ <;> rfl

/-- C3 counterexample: for 12 remaining bytes the largest fitting
power-of-two store is 8, but zero_initialize_bytes (whose step size is
bytes % 8) emits a 4-byte store first, then an 8-byte store. -/
theorem c3_counterexample :
    ((zero_initialize_bytes { offset := 0, field_offset := 0, field_width := 0, ty := .t_void } 12).map
        (fun s => size_of s.t.ty)) = [4, 8] ∧
    largest_fit 12 = 8 ∧ (4 : Nat) ≠ 8 := by
  refine ⟨?_, ?_, ?_⟩
  · rfl
  · rfl
  · decide

/-- C3 amended, core lemma: the zero-fill loop emits contiguous stores
whose sizes follow the bytes % 8 rule, total exactly the requested byte
count, are powers of two at most 8, and carry no bit-field slice. -/
theorem zib_spec (bytes : Nat) : ∀ off : Int,
    contiguousFromB off (zib off bytes) = true ∧
    ((zib off bytes).map (fun s => size_of s.t.ty)).sum = bytes ∧
    ∀ s ∈ zib off bytes,
      (size_of s.t.ty = 1 ∨ size_of s.t.ty = 2 ∨ size_of s.t.ty = 4 ∨ size_of s.t.ty = 8) ∧
      s.t.field_offset = 0 ∧ s.t.field_width = 0 := by
  induction bytes using Nat.strong_induction_on with
  | _ bytes ih =>
    intro off
    by_cases h : bytes = 0
    · subst h
      rw [zib_unfold]
      simp [contiguousFromB]
    · rw [zib_unfold]
      simp only [h, if_false]
      have hlt : bytes - zib_size bytes < bytes :=
        Nat.sub_lt (Nat.pos_of_ne_zero h) (zib_size_pos _)
      have hih := ih (bytes - zib_size bytes) hlt (off + (zib_size bytes : Int))
      have hle := zib_size_le bytes h
      refine ⟨?_, ?_, ?_⟩
      · simp only [contiguousFromB, size_of_zib_ty]
        simp [hih.1]
      · simp only [List.map_cons, List.sum_cons, size_of_zib_ty, hih.2.1]
        omega
      · intro s hs
        rcases List.mem_cons.mp hs with hs | hs
        · subst hs
          refine ⟨?_, rfl, rfl⟩
          simp only [size_of_zib_ty]
          unfold zib_size
          split
          · omega
          · split
            · omega
            · split <;> omega
        · exact hih.2.2 s hs

/-- C3 amended: for every byte count n > 0, zero_initialize_bytes emits
stores that cover exactly n bytes contiguously from target.offset with
power-of-two sizes at most 8 and no bit-field slice, where each step
stores r = remaining % 8 bytes when r is 1, 2 or 4, 8 bytes when r = 0,
and 1 byte otherwise; in particular the first store has size
zib_size n, not the largest power of two fitting in n. -/
theorem c3_amended (target : Var) (bytes : Nat) (h : 0 < bytes) :
    contiguousFromB target.offset (zero_initialize_bytes target bytes) = true ∧
    ((zero_initialize_bytes target bytes).map (fun s => size_of s.t.ty)).sum = bytes ∧
    (∀ s ∈ zero_initialize_bytes target bytes,
      (size_of s.t.ty = 1 ∨ size_of s.t.ty = 2 ∨ size_of s.t.ty = 4 ∨ size_of s.t.ty = 8) ∧
      s.t.field_offset = 0 ∧ s.t.field_width = 0) ∧
    (zero_initialize_bytes target bytes).head?.map (fun s => size_of s.t.ty) =
      some (zib_size bytes) := by
  have hs := zib_spec bytes target.offset
  refine ⟨hs.1, hs.2.1, hs.2.2, ?_⟩
  unfold zero_initialize_bytes
  rw [zib_unfold]
  have h' : ¬ bytes = 0 := by omega
  simp [h', size_of_zib_ty]

/-- C3 amended, witness at bytes = 3. -/
theorem c3_amended_witness :
    (0 : Nat) < 3 ∧
    (contiguousFromB ({ offset := 0, field_offset := 0, field_width := 0, ty := Ty.t_void } : Var).offset
        (zero_initialize_bytes { offset := 0, field_offset := 0, field_width := 0, ty := Ty.t_void } 3) = true ∧
    ((zero_initialize_bytes { offset := 0, field_offset := 0, field_width := 0, ty := Ty.t_void } 3).map
        (fun s => size_of s.t.ty)).sum = 3 ∧
    (∀ s ∈ zero_initialize_bytes { offset := 0, field_offset := 0, field_width := 0, ty := Ty.t_void } 3,
      (size_of s.t.ty = 1 ∨ size_of s.t.ty = 2 ∨ size_of s.t.ty = 4 ∨ size_of s.t.ty = 8) ∧
      s.t.field_offset = 0 ∧ s.t.field_width = 0) ∧
    (zero_initialize_bytes { offset := 0, field_offset := 0, field_width := 0, ty := Ty.t_void } 3).head?.map
        (fun s => size_of s.t.ty) = some (zib_size 3)) :=
  ⟨by decide, c3_amended _ 3 (by decide)⟩

/-- C2 counterexample: after a comma, the struct/union probe treats an
opening bracket as a continuation even when the state is not CURRENT
(and consumes the comma), and the array probe never treats a dot as a
continuation even in state CURRENT — both against the claimed rule
"continuation iff state == CURRENT" for the pairs ,. and ,[. -/
theorem c2_counterexample :
    (next_element .DESIGNATOR [Tok.comma, Tok.lbrack]).1 = true ∧
    (has_next_array_element .CURRENT [Tok.comma, Tok.dot]).1 = false ∧
    CObjState.DESIGNATOR ≠ CObjState.CURRENT := by
  refine ⟨rfl, rfl, by decide⟩

/-- C2 amended: full characterisation of both probes on a stream
beginning with a comma.  Struct/union probe: a closing brace never
continues; a dot continues exactly in state CURRENT; every other token
(including an opening bracket) always continues; the comma is consumed
exactly when a continuation is reported.  Array probe: closing brace
and dot never continue; an opening bracket continues (as a designator)
exactly in state CURRENT; every other token continues; the probe never
consumes tokens. -/
theorem c2_amended (state : CObjState) (t : Tok) (rest : List Tok) :
    next_element state (Tok.comma :: t :: rest) =
      (if t = .rbrace then (false, Tok.comma :: t :: rest)
       else if t = .dot then
         (if state = .CURRENT then (true, t :: rest) else (false, Tok.comma :: t :: rest))
       else (true, t :: rest)) ∧
    has_next_array_element state (Tok.comma :: t :: rest) =
      (if t = .rbrace then (false, false)
       else if t = .dot then (false, false)
       else if t = .lbrack then (if state = .CURRENT then (true, true) else (false, false))
       else (true, false)) := by
  cases t <;> cases state <;>
    simp [next_element, has_next_array_element, peek, peek2]

/-- The source's load-time-constant test coincides with the
specification's disjunction (immediate, address of linked symbol, or
direct array/function reference to a linked symbol, under an identity
expression). -/
theorem is_loadtime_constant_iff (e : ExprM) :
    is_loadtime_constant e = true ↔ loadtime_spec e := by
  unfold is_loadtime_constant loadtime_spec
  cases hop : e.op <;> cases hk : e.lkind <;>
    simp [is_identity, hop, hk]

/-- C6 counterexample: an identity immediate constant — a load-time
constant in the claim's sense — is rejected with the load-time fatal
error when the expression parse emitted a statement into the block. -/
theorem c6_counterexample :
    is_loadtime_constant immIntExpr = true ∧
    read_initializer_element c6Oracle true emptySt = .error .loadtime := by
  exact ⟨rfl, rfl⟩

/-- C6 amended: for a symbol with linkage, the element reader accepts
exactly when the expression parse stayed in the same block, emitted no
statements, and produced a load-time constant in the claim's sense
(equivalently is_loadtime_constant); a void result is rejected first
with the void diagnostic, and every other rejection carries the message
"Initializer must be computable at load time." -/
theorem c6_amended (O : Oracles) (st : St) (hp : st.pending = none) :
    (∀ e : ExprM, is_loadtime_constant e = true ↔ loadtime_spec e) ∧
    (is_void (O.ae st.toks).expr.ty = true →
      read_initializer_element O true st = .error .voidValue) ∧
    (is_void (O.ae st.toks).expr.ty = false →
      (((O.ae st.toks).sameBlock = true ∧ (O.ae st.toks).stmts.length = 0 ∧
        loadtime_spec (O.ae st.toks).expr) →
        read_initializer_element O true st =
          .ok { st with toks := (O.ae st.toks).toks,
                        block := st.block ++ (O.ae st.toks).stmts,
                        pending := some (O.ae st.toks).expr }) ∧
      (¬ ((O.ae st.toks).sameBlock = true ∧ (O.ae st.toks).stmts.length = 0 ∧
          loadtime_spec (O.ae st.toks).expr) →
        read_initializer_element O true st = .error .loadtime ∧
        errorText .loadtime = "Initializer must be computable at load time.")) := by
  refine ⟨is_loadtime_constant_iff, ?_, ?_⟩
  · intro hv
    unfold read_initializer_element
    rw [hp]
    simp [hv]
  · intro hv
    constructor
    · intro ⟨hsb, hlen, hlc⟩
      have hlc' : is_loadtime_constant (O.ae st.toks).expr = true :=
        (is_loadtime_constant_iff _).mpr hlc
      have hid : is_identity (O.ae st.toks).expr = true := hlc.1
      unfold read_initializer_element
      rw [hp]
      simp [hv, hsb, hlen, hid, hlc']
    · intro hrej
      unfold read_initializer_element
      rw [hp]
      have : ¬ (O.ae st.toks).sameBlock = true ∨ ¬ (O.ae st.toks).stmts.length = 0 ∨
          ¬ is_loadtime_constant (O.ae st.toks).expr = true := by
        by_cases h1 : (O.ae st.toks).sameBlock = true
        · by_cases h2 : (O.ae st.toks).stmts.length = 0
          · refine Or.inr (Or.inr ?_)
            intro hlc
            exact hrej ⟨h1, h2, (is_loadtime_constant_iff _).mp hlc⟩
          · exact Or.inr (Or.inl h2)
        · exact Or.inl h1
      refine ⟨?_, rfl⟩
      rcases this with h | h | h
      · simp [hv, h]
      · have h0 : 0 < (O.ae st.toks).stmts.length := by omega
        simp [hv, h0]
      · have hb : is_loadtime_constant (O.ae st.toks).expr = false := by
          cases hb : is_loadtime_constant (O.ae st.toks).expr
          · rfl
          · exact absurd hb h
        simp [hv, hb]

/-- C6 amended, witness at the counterexample oracle and state. -/
theorem c6_amended_witness :
    (∀ e : ExprM, is_loadtime_constant e = true ↔ loadtime_spec e) ∧
    (is_void (c6Oracle.ae emptySt.toks).expr.ty = true →
      read_initializer_element c6Oracle true emptySt = .error .voidValue) ∧
    (is_void (c6Oracle.ae emptySt.toks).expr.ty = false →
      (((c6Oracle.ae emptySt.toks).sameBlock = true ∧ (c6Oracle.ae emptySt.toks).stmts.length = 0 ∧
        loadtime_spec (c6Oracle.ae emptySt.toks).expr) →
        read_initializer_element c6Oracle true emptySt =
          .ok { emptySt with toks := (c6Oracle.ae emptySt.toks).toks,
                             block := emptySt.block ++ (c6Oracle.ae emptySt.toks).stmts,
                             pending := some (c6Oracle.ae emptySt.toks).expr }) ∧
      (¬ ((c6Oracle.ae emptySt.toks).sameBlock = true ∧ (c6Oracle.ae emptySt.toks).stmts.length = 0 ∧
          loadtime_spec (c6Oracle.ae emptySt.toks).expr) →
        read_initializer_element c6Oracle true emptySt = .error .loadtime ∧
        errorText .loadtime = "Initializer must be computable at load time.")) :=
  c6_amended c6Oracle emptySt rfl

/-! Lemmas for C7: no statement that postprocessing emits or keeps has a
call expression, provided none of its explicit inputs does. -/

theorem mem_of_get?_some {l : List Stmt} {n : Nat} {a : Stmt} (h : l[n]? = some a) : a ∈ l := by
  have hn : n < l.length := by
    by_contra hc
    simp [List.getElem?_eq_none (by omega : l.length ≤ n)] at h
  have : l[n] = a := by simpa [List.getElem?_eq_getElem hn] using h
  exact this ▸ List.getElem_mem hn

theorem stGet_mem (l : List Stmt) (j : Nat) : stGet l j ∈ l ∨ stGet l j = dummyStmt := by
  unfold stGet
  rcases h : l[j]? with _ | a
  · right
    simp [List.getD, h]
  · left
    have := mem_of_get?_some h
    simpa [List.getD, h] using this

theorem stSwap_pres {P : Stmt → Prop} {l : List Stmt} (j : Nat)
    (hP : ∀ s ∈ l, P s) (hd : P dummyStmt) : ∀ s ∈ stSwap l j, P s := by
  intro s hs
  unfold stSwap at hs
  rcases List.mem_or_eq_of_mem_set hs with hs | hs
  · rcases List.mem_or_eq_of_mem_set hs with hs | hs
    · exact hP s hs
    · subst hs
      rcases stGet_mem l (j + 1) with h | h
      · exact hP _ h
      · exact h ▸ hd
  · subst hs
    rcases stGet_mem l j with h | h
    · exact hP _ h
    · exact h ▸ hd

theorem strimBubble_pres {P : Stmt → Prop} (hd : P dummyStmt) :
    ∀ (j : Nat) (l : List Stmt), (∀ s ∈ l, P s) → ∀ s ∈ (strimBubble l j).1, P s := by
  intro j
  induction j with
  | zero =>
    intro l hP s hs
    unfold strimBubble at hs
    split at hs
    · exact stSwap_pres 0 hP hd s hs
    · exact hP s hs
  | succ j ih =>
    intro l hP s hs
    unfold strimBubble at hs
    split at hs
    · exact ih _ (stSwap_pres (j + 1) hP hd) s hs
    · exact hP s hs

theorem strimLoop_pres {P : Stmt → Prop} (hd : P dummyStmt) :
    ∀ (fuel : Nat) (l : List Stmt) (i : Nat), (∀ s ∈ l, P s) → ∀ s ∈ strimLoop fuel l i, P s := by
  intro fuel
  induction fuel with
  | zero => intro l i hP s hs; exact hP s hs
  | succ fuel ih =>
    intro l i hP s hs
    unfold strimLoop at hs
    split at hs
    · have hb := strimBubble_pres hd (i - 1) l hP
      split at hs
      · refine ih _ _ (fun s' hs' => hb s' ?_) s hs
        exact (List.eraseIdx_sublist _ _).mem hs'
      · exact ih _ _ hb s hs
    · exact hP s hs

theorem sort_and_trim_pres {P : Stmt → Prop} (hd : P dummyStmt) (values : List Stmt)
    (hP : ∀ s ∈ values, P s) : ∀ s ∈ sort_and_trim values, P s :=
  strimLoop_pres hd values.length values 1 hP

theorem zi_op_depth : ∀ (d : Nat) (t : Ty), arrayDepth t ≤ d →
    ∀ (off : Int) (fo fw : Nat), ∀ s ∈ zi t off fo fw, s.expr.op = .id := by
  intro d
  induction d with
  | zero =>
    intro t hd off fo fw s hs
    cases t with
    | t_array e n => simp [arrayDepth] at hd
    | t_struct sz ms =>
      unfold zi at hs
      split at hs <;> (rw [List.mem_map] at hs; obtain ⟨i, _, rfl⟩ := hs; rfl)
    | t_union sz ms =>
      unfold zi at hs
      split at hs <;> (rw [List.mem_map] at hs; obtain ⟨i, _, rfl⟩ := hs; rfl)
    | t_void => simp [zi] at hs
    | t_func => simp [zi] at hs
    | t_char => simp [zi] at hs; rw [hs]; rfl
    | t_short => simp [zi] at hs; rw [hs]; rfl
    | t_int => simp [zi] at hs; rw [hs]; rfl
    | t_long => simp [zi] at hs; rw [hs]; rfl
    | t_scalar sz => simp [zi] at hs; rw [hs]; rfl
  | succ d ih =>
    intro t hd off fo fw s hs
    cases t with
    | t_array e n =>
      unfold zi at hs
      rw [List.mem_flatMap] at hs
      obtain ⟨i, _, hs⟩ := hs
      exact ih e (by simpa [arrayDepth] using hd) _ _ _ s hs
    | t_struct sz ms =>
      unfold zi at hs
      split at hs <;> (rw [List.mem_map] at hs; obtain ⟨i, _, rfl⟩ := hs; rfl)
    | t_union sz ms =>
      unfold zi at hs
      split at hs <;> (rw [List.mem_map] at hs; obtain ⟨i, _, rfl⟩ := hs; rfl)
    | t_void => simp [zi] at hs
    | t_func => simp [zi] at hs
    | t_char => simp [zi] at hs; rw [hs]; rfl
    | t_short => simp [zi] at hs; rw [hs]; rfl
    | t_int => simp [zi] at hs; rw [hs]; rfl
    | t_long => simp [zi] at hs; rw [hs]; rfl
    | t_scalar sz => simp [zi] at hs; rw [hs]; rfl

theorem zi_op (t : Ty) : ∀ (off : Int) (fo fw : Nat), ∀ s ∈ zi t off fo fw, s.expr.op = .id :=
  zi_op_depth (arrayDepth t) t le_rfl

theorem zero_initialize_op (target : Var) : ∀ s ∈ zero_initialize target, s.expr.op = .id :=
  zi_op target.ty target.offset target.field_offset target.field_width

theorem zibF_op : ∀ (fuel : Nat) (off : Int) (bytes : Nat), ∀ s ∈ zibF fuel off bytes, s.expr.op = .id := by
  intro fuel
  induction fuel with
  | zero => intro off bytes s hs; simp [zibF] at hs
  | succ fuel ih =>
    intro off bytes s hs
    unfold zibF at hs
    split at hs
    · simp at hs
    · rcases List.mem_cons.mp hs with hs | hs
      · subst hs; rfl
      · exact ih _ _ s hs

theorem zib_op (off : Int) (bytes : Nat) : ∀ s ∈ zib off bytes, s.expr.op = .id :=
  zibF_op bytes off bytes

theorem initialize_padding_op (target field : Var) :
    ∀ s ∈ initialize_padding target field, s.expr.op = .id := by
  intro s hs
  unfold initialize_padding at hs
  split at hs
  · rw [List.mem_append] at hs
    rcases hs with hs | hs
    · split at hs
      · exact zero_initialize_op _ s hs
      · simp at hs
    · exact zib_op _ _ s hs
  · split at hs
    · exact zero_initialize_op _ s hs
    · simp at hs

theorem trailFill_op (target : Var) (size : Nat) :
    ∀ s ∈ trailFill target size, s.expr.op = .id := by
  intro s hs
  unfold trailFill at hs
  split at hs
  · exact zib_op _ _ s hs
  · simp at hs

theorem initialize_trailing_padding_op (target : Var) (size bitfield_size : Nat) :
    ∀ s ∈ initialize_trailing_padding target size bitfield_size, s.expr.op = .id := by
  intro s hs
  unfold initialize_trailing_padding at hs
  split at hs
  · rw [List.mem_append] at hs
    rcases hs with hs | hs
    · exact zero_initialize_op _ s hs
    · exact trailFill_op _ _ s hs
  · exact trailFill_op _ _ s hs

theorem ppLoop_pres {P : Stmt → Prop} (hpad : ∀ s, s.expr.op = .id → P s) :
    ∀ (stmts : List Stmt) (target : Var) (bfs : Nat), (∀ s ∈ stmts, P s) →
      ∀ s ∈ (ppLoop stmts target bfs).1, P s := by
  intro stmts
  induction stmts with
  | nil => intro target bfs hP s hs; simp [ppLoop] at hs
  | cons a rest ih =>
    intro target bfs hP s hs
    unfold ppLoop at hs
    simp only [List.mem_append, List.mem_cons] at hs
    rcases hs with hs | hs | hs
    · exact hpad s (initialize_padding_op _ _ s hs)
    · exact hs ▸ hP a (List.mem_cons_self a rest)
    · exact ih _ _ (fun s' hs' => hP s' (List.mem_cons_of_mem a hs')) s hs

/-- C7: every element expression that is a call (for a no-linkage
symbol) is materialised into a fresh temporary — the call is emitted as
an assignment to the temporary on the ordinary block and the pending
expression replaced by a reference to it, so the pending expression is
never a call — and post-processing emits no assignment with a call
expression when its explicit inputs have none (its padding statements
are zero immediates). -/
theorem c7_calls_materialized :
    (∀ (O : Oracles) (st st' : St), read_initializer_element O false st = .ok st' →
      ((O.ae st.toks).expr.op = .call →
        st'.block = st.block ++ (O.ae st.toks).stmts ++
          [{ t := tmpVar (O.ae st.toks).expr.ty, expr := (O.ae st.toks).expr }] ∧
        st'.pending = some (tmpExpr (O.ae st.toks).expr.ty)) ∧
      (∀ e, st'.pending = some e → e.op ≠ .call)) ∧
    (∀ (values : List Stmt) (target : Var),
      (∀ s ∈ values, s.expr.op ≠ .call) →
      ∀ s ∈ postprocess_object_initialization values target, s.expr.op ≠ .call) := by
  constructor
  · intro O st st' h
    unfold read_initializer_element at h
    cases hp : st.pending with
    | some e => rw [hp] at h; exact absurd h (by simp)
    | none =>
      rw [hp] at h
      by_cases hv : is_void (O.ae st.toks).expr.ty
      · simp [hv] at h
      · by_cases hc : (O.ae st.toks).expr.op = .call
        · simp [hv, hc] at h
          constructor
          · intro _
            rw [← h]
            exact ⟨by simp, rfl⟩
          · intro e he
            rw [← h] at he
            simp at he
            rw [← he]
            simp [tmpExpr]
        · simp [hv, hc] at h
          constructor
          · intro hcall
            exact absurd hcall hc
          · intro e he
            rw [← h] at he
            simp at he
            rw [← he]
            exact hc
  · intro values target hP s hs
    unfold postprocess_object_initialization at hs
    rw [List.mem_append] at hs
    have hsorted : ∀ s ∈ sort_and_trim values, s.expr.op ≠ .call :=
      sort_and_trim_pres (by simp [dummyStmt, zeroExpr]) values hP
    rcases hs with hs | hs
    · refine ppLoop_pres (fun s' h' => ?_) _ _ _ hsorted s hs
      rw [h']
      simp
    · have := initialize_trailing_padding_op _ _ _ s hs
      rw [this]
      simp

/-- C7 witness: a call read for a no-linkage symbol ends up behind a
temporary (the pending expression is not a call), and postprocessing a
call-free buffer yields a call-free buffer. -/
theorem c7_witness :
    (∀ e, (resSt (read_initializer_element c7Oracle false emptySt)).pending = some e →
      e.op ≠ .call) ∧
    (∀ s ∈ postprocess_object_initialization [bfWriteB] bfRoot, s.expr.op ≠ .call) := by
  constructor
  · exact (c7_calls_materialized.1 c7Oracle emptySt
      (resSt (read_initializer_element c7Oracle false emptySt)) rfl).2
  · exact c7_calls_materialized.2 [bfWriteB] bfRoot (by decide)

/-! C8: the positional member-skip loop of initialize_struct. -/

theorem skipGo_spec : ∀ (l : List Memb) (p : Memb) (i : Nat) (mem : Memb) (i' : Nat),
    skipGo l (some p) i = some (mem, i') →
    i < i' ∧ i' ≤ i + l.length ∧
    l[i' - 1 - i]? = some mem ∧
    (∀ k, k < i' - 1 - i → ∃ mk, l[k]? = some mk ∧ mk.off = p.off ∧ mk.fo = p.fo) ∧
    (mem.off ≠ p.off ∨ mem.fo ≠ p.fo) := by
  intro l
  induction l with
  | nil => intro p i mem i' h; simp [skipGo] at h
  | cons m rest ih =>
    intro p i mem i' h
    simp only [skipGo] at h
    split at h
    · next hne =>
      cases h
      refine ⟨by omega, by simp only [List.length_cons]; omega, by simp, ?_, ?_⟩
      · intro k hk
        exact absurd hk (by omega)
      · rcases hne with hne | hne
        · exact Or.inl (fun hx => hne hx.symm)
        · exact Or.inr (fun hx => hne hx.symm)
    · next heq =>
      have hm : p.off = m.off ∧ p.fo = m.fo := by
        constructor
        · by_contra hc
          exact heq (Or.inl hc)
        · by_contra hc
          exact heq (Or.inr hc)
      have hih := ih p (i + 1) mem i' h
      obtain ⟨h1, h2, h3, h4, h5⟩ := hih
      refine ⟨by omega, by simp; omega, ?_, ?_, h5⟩
      · have : i' - 1 - i = (i' - 1 - (i + 1)) + 1 := by omega
        rw [this]
        simpa using h3
      · intro k hk
        cases k with
        | zero => exact ⟨m, by simp, hm.1.symm, hm.2.symm⟩
        | succ k =>
          have hk' : k < i' - 1 - (i + 1) := by omega
          obtain ⟨mk, hmk, h6, h7⟩ := h4 k hk'
          exact ⟨mk, by simpa using hmk, h6, h7⟩

/-- C8: during a positional struct walk the engine skips exactly the
run of members whose byte offset and bit-field offset both equal the
previous member's: when the skip loop selects a member, every member
between the resume index and the selected one overlaps the previous
member's storage, and the selected member itself does not — so of an
overlapping group (an anonymous union) only the first declared member
receives the positional element. -/
theorem c8_struct_positional_skip (ms : List Memb) (p : Memb) (i : Nat) (mem : Memb) (i' : Nat)
    (h : skip_members ms (some p) i = some (mem, i')) :
    i < i' ∧ i' ≤ ms.length ∧ ms[i' - 1]? = some mem ∧
    (∀ k, i ≤ k → k < i' - 1 → ∃ mk, ms[k]? = some mk ∧ mk.off = p.off ∧ mk.fo = p.fo) ∧
    (mem.off ≠ p.off ∨ mem.fo ≠ p.fo) := by
  unfold skip_members at h
  have hi : i ≤ ms.length := by
    by_contra hc
    rw [List.drop_eq_nil_of_le (by omega)] at h
    simp [skipGo] at h
  obtain ⟨h1, h2, h3, h4, h5⟩ := skipGo_spec (ms.drop i) p i mem i' h
  rw [List.length_drop] at h2
  refine ⟨h1, by omega, ?_, ?_, h5⟩
  · rw [List.getElem?_drop] at h3
    have : i + (i' - 1 - i) = i' - 1 := by omega
    rwa [this] at h3
  · intro k hk1 hk2
    obtain ⟨mk, hmk, h6, h7⟩ := h4 (k - i) (by omega)
    rw [List.getElem?_drop] at hmk
    have : i + (k - i) = k := by omega
    rw [this] at hmk
    exact ⟨mk, hmk, h6, h7⟩

/-- C8 witness: in the overlap member list, resuming at index 2 with
previous member b skips c (same offset and bit offset) and selects d. -/
theorem c8_witness :
    (2 : Nat) < 4 ∧ (4 : Nat) ≤ overlapMembers.length ∧ overlapMembers[4 - 1]? = some membD ∧
    (∀ k, 2 ≤ k → k < 4 - 1 →
      ∃ mk, overlapMembers[k]? = some mk ∧ mk.off = membB.off ∧ mk.fo = membB.fo) ∧
    (membD.off ≠ membB.off ∨ membD.fo ≠ membB.fo) :=
  c8_struct_positional_skip overlapMembers membB 2 membD 4 rfl

/-! C5: a union initializer keeps only the last arm. -/

theorem union_loop_spec (im : Var → St → Res) :
    ∀ (fuel : Nat) (type : Ty) (filled : Int) (target : Var) (state : CObjState)
      (done : Bool) (lastArm : List Stmt) (tr0 : List (Bool × Nat × List Stmt))
      (st st' : St) (arm' : List Stmt) (tr' : List (Bool × Nat × List Stmt)),
      union_loop im fuel type filled target state done lastArm tr0 st = .ok (st', arm', tr') →
      st'.values = st.values ∧
      ∃ new, tr' = tr0 ++ new ∧
        (new = [] → arm' = lastArm ∧ done = true) ∧
        (new ≠ [] → ∃ d idx, new.getLast? = some (d, idx, arm')) ∧
        (done = false → new ≠ []) ∧
        (done = true → ∀ e ∈ new, e.1 = true) ∧
        (∀ e ∈ new.drop 1, e.1 = true) := by
  intro fuel
  induction fuel with
  | zero =>
    intro type filled target state done lastArm tr0 st st' arm' tr' h
    exact absurd h (by simp [union_loop])
  | succ fuel ih =>
    intro type filled target state done lastArm tr0 st st' arm' tr' h
    simp only [union_loop] at h
    split at h
    · -- designated arm
      split at h
      · exact absurd h (by simp)
      · next m idx st3 heqp =>
        split at h
        · exact absurd h (by simp)
        · next st4 heqim =>
          split at h
          · -- continuation: recurse with done = true
            obtain ⟨hv, new', htr, hnil, hlast, _, hdes, hdrop⟩ :=
              ih type filled _ state true st4.values (tr0 ++ [(true, idx, st4.values)])
                _ st' arm' tr' h
            refine ⟨by simpa using hv, (true, idx, st4.values) :: new', ?_, ?_, ?_, ?_, ?_, ?_⟩
            · rw [htr, List.append_assoc, List.singleton_append]
            · intro hc
              exact absurd hc (by simp)
            · intro _
              cases hn' : new' with
              | nil =>
                subst hn'
                obtain ⟨ha, -⟩ := hnil rfl
                exact ⟨true, idx, by simp [ha]⟩
              | cons a l =>
                obtain ⟨d, i, hl⟩ := hlast (by simp [hn'])
                subst hn'
                exact ⟨d, i, by rw [List.getLast?_cons_cons]; exact hl⟩
            · intro _
              simp
            · intro _
              intro e he
              rcases List.mem_cons.mp he with rfl | he
              · rfl
              · exact hdes rfl e he
            · intro e he
              simp only [List.drop_one, List.tail_cons] at he
              exact hdes rfl e he
          · -- no continuation: the appended entry is the last
            cases h
            refine ⟨by simp, [(true, idx, st4.values)], rfl, ?_, ?_, ?_, ?_, ?_⟩
            · intro hc
              exact absurd hc (by simp)
            · intro _
              exact ⟨true, idx, by simp⟩
            · intro _
              simp
            · intro _ e he
              rcases List.mem_cons.mp he with rfl | he
              · rfl
              · simp at he
            · intro e he
              simp at he
    · -- positional or break
      split at h
      · -- first positional element
        next hnd =>
        split at h
        · exact absurd h (by simp)
        · next m heqm =>
          split at h
          · exact absurd h (by simp)
          · next st4 heqim =>
            split at h
            · obtain ⟨hv, new', htr, hnil, hlast, _, hdes, hdrop⟩ :=
                ih type filled _ state true st4.values (tr0 ++ [(false, 0, st4.values)])
                  _ st' arm' tr' h
              refine ⟨by simpa using hv, (false, 0, st4.values) :: new', ?_, ?_, ?_, ?_, ?_, ?_⟩
              · rw [htr, List.append_assoc, List.singleton_append]
              · intro hc
                exact absurd hc (by simp)
              · intro _
                cases hn' : new' with
                | nil =>
                  subst hn'
                  obtain ⟨ha, -⟩ := hnil rfl
                  exact ⟨false, 0, by simp [ha]⟩
                | cons a l =>
                  obtain ⟨d, i, hl⟩ := hlast (by simp [hn'])
                  subst hn'
                  exact ⟨d, i, by rw [List.getLast?_cons_cons]; exact hl⟩
              · intro _
                simp
              · intro hdone
                exact absurd hdone hnd
              · intro e he
                simp only [List.drop_one, List.tail_cons] at he
                exact hdes rfl e he
            · cases h
              refine ⟨by simp, [(false, 0, st4.values)], rfl, ?_, ?_, ?_, ?_, ?_⟩
              · intro hc
                exact absurd hc (by simp)
              · intro _
                exact ⟨false, 0, by simp⟩
              · intro _
                simp
              · intro hdone
                exact absurd hdone hnd
              · intro e he
                simp at he
      · -- break before any work: only reachable when done
        next hnd =>
        cases h
        refine ⟨rfl, [], by simp, ?_, ?_, ?_, ?_, ?_⟩
        · intro _
          refine ⟨rfl, ?_⟩
          cases hdone : done
          · rw [hdone] at hnd
            simp at hnd
          · rfl
        · intro hc
          exact absurd rfl hc
        · intro hdf
          rw [hdf] at hnd
          simp at hnd
        · intro _ e he
          simp at he
        · intro e he
          simp at he

/-- C5: for every union initializer run, the transcript of evaluated
arms is nonempty, every arm after the first was introduced by a .name
designator, and only the last arm's assignments are concatenated onto
the caller's values stream — assignments of all earlier arms (designated
or positional) are discarded. -/
theorem c5_union_last_wins (im : Var → St → Res) (fuel : Nat) (target : Var)
    (state : CObjState) (st st' : St) (tr : List (Bool × Nat × List Stmt))
    (h : initialize_union im fuel target state st = .ok (st', tr)) :
    ∃ d idx arm, tr.getLast? = some (d, idx, arm) ∧
      st'.values = st.values ++ arm ∧
      (∀ e ∈ tr.drop 1, e.1 = true) := by
  unfold initialize_union at h
  split at h
  · exact absurd h (by simp)
  · cases hloop : union_loop im fuel target.ty target.offset target state false [] [] st with
    | error e => rw [hloop] at h; exact absurd h (by simp)
    | ok p =>
      obtain ⟨st1, arm, tr1⟩ := p
      rw [hloop] at h
      cases h
      obtain ⟨hv, new, htr, hnil, hlast, hne, _, hdrop⟩ :=
        union_loop_spec im fuel target.ty target.offset target state false [] [] st st1 arm tr hloop
      have hnew : new ≠ [] := hne rfl
      obtain ⟨d, idx, hl⟩ := hlast hnew
      refine ⟨d, idx, arm, ?_, by simp [hv], ?_⟩
      · rw [htr]
        simpa using hl
      · intro e he
        rw [htr] at he
        simpa using hdrop e (by simpa using he)

/-- C5 witness: a union initializer with a single .y designator yields a
one-entry transcript whose arm is exactly what lands on the values
stream. -/
theorem c5_witness :
    ∃ d idx arm,
      (resUTr (initialize_union c5Im 3 c5Target .CURRENT c5St)).getLast? = some (d, idx, arm) ∧
      (resUSt (initialize_union c5Im 3 c5Target .CURRENT c5St)).values = c5St.values ++ arm ∧
      (∀ e ∈ (resUTr (initialize_union c5Im 3 c5Target .CURRENT c5St)).drop 1, e.1 = true) :=
  c5_union_last_wins c5Im 3 c5Target .CURRENT c5St
    (resUSt (initialize_union c5Im 3 c5Target .CURRENT c5St))
    (resUTr (initialize_union c5Im 3 c5Target .CURRENT c5St)) rfl

/-! C9: flexible-array length patching. -/

theorem read_initializer_element_keeps (O : Oracles) (link : Bool) (st st' : St)
    (h : read_initializer_element O link st = .ok st') :
    st'.patched = st.patched ∧ st'.values = st.values := by
  unfold read_initializer_element at h
  cases hp : st.pending with
  | some e => rw [hp] at h; exact absurd h (by simp)
  | none =>
    rw [hp] at h
    by_cases hv : is_void (O.ae st.toks).expr.ty
    · simp [hv] at h
    · cases link with
      | false =>
        by_cases hc : (O.ae st.toks).expr.op = .call
        · simp [hv, hc] at h
          rw [← h]
          exact ⟨rfl, rfl⟩
        · simp [hv, hc] at h
          rw [← h]
          exact ⟨rfl, rfl⟩
      | true =>
        by_cases hcond : ¬ (O.ae st.toks).sameBlock = true ∨ 0 < (O.ae st.toks).stmts.length ∨
            ¬ is_identity (O.ae st.toks).expr = true ∨ ¬ is_loadtime_constant (O.ae st.toks).expr = true
        · simp only [hv] at h
          rw [if_neg (by simp [hv]), if_pos (by trivial), if_pos hcond] at h
          exact absurd h (by simp)
        · simp only [hv] at h
          rw [if_neg (by simp [hv]), if_pos (by trivial), if_neg hcond] at h
          cases h
          exact ⟨rfl, rfl⟩

theorem read_first_element_keeps (O : Oracles) (link : Bool) (st st' : St)
    (h : read_first_element O link st = .ok st') :
    st'.patched = st.patched ∧ st'.values = st.values := by
  unfold read_first_element at h
  split at h
  · split at h
    · cases h; exact ⟨rfl, rfl⟩
    · cases h; exact ⟨rfl, rfl⟩
    · cases h; exact ⟨rfl, rfl⟩
    · exact read_initializer_element_keeps O link st st' h
  · cases h; exact ⟨rfl, rfl⟩

theorem try_parse_index_keeps (O : Oracles) (st : St) (r : Option Nat) (st' : St)
    (h : try_parse_index O st = .ok (r, st')) : st'.patched = st.patched := by
  unfold try_parse_index at h
  split at h
  · split at h
    · exact absurd h (by simp)
    · split at h
      · cases h; rfl
      · exact absurd h (by simp)
  · cases h; rfl

theorem consumeTok_keeps (t : Tok) (st st' : St) (h : consumeTok t st = .ok st') :
    st'.patched = st.patched := by
  unfold consumeTok at h
  split at h
  · cases h; rfl
  · exact absurd h (by simp)

theorem array_step_spec (im : Var → St → Res)
    (rec : Int → Nat → Nat → CObjState → Var → Nat → Nat → List Nat → St →
      Except Err (St × Nat × List Nat))
    (him : ∀ t s s', im t s = .ok s' → s'.patched = s.patched)
    (hrec : ∀ initial width count state target i c tr0 st st' c' tr',
      rec initial width count state target i c tr0 st = .ok (st', c', tr') →
      ∃ new, tr' = tr0 ++ new ∧ new ≠ [] ∧
        c' = new.foldl bump c ∧
        st'.patched = st.patched) :
    ∀ (initial : Int) (width count : Nat) (state : CObjState) (target : Var)
      (i0 : Nat) (st2 : St) (c : Nat) (tr0 : List Nat) (st' : St) (c' : Nat) (tr' : List Nat),
      array_step im rec initial width count state target i0 st2 c tr0 = .ok (st', c', tr') →
      ∃ new, tr' = tr0 ++ new ∧ new ≠ [] ∧
        c' = new.foldl bump c ∧
        st'.patched = st2.patched := by
  intro initial width count state target i0 st2 c tr0 st' c' tr' h
  unfold array_step at h
  split at h
  · exact absurd h (by simp)
  · next st3 heqim =>
    have hp3 : st3.patched = st2.patched := him _ _ _ heqim
    split at h
    · split at h
      · cases h
        exact ⟨[i0], rfl, by simp, rfl, hp3⟩
      · split at h
        · exact absurd h (by simp)
        · next st4 heqc =>
          obtain ⟨new, htr, hne, hc, hpatch⟩ := hrec _ _ _ _ _ _ _ _ _ _ _ _ h
          refine ⟨i0 :: new, ?_, by simp, ?_, ?_⟩
          · rw [htr, List.append_assoc, List.singleton_append]
          · simpa [List.foldl] using hc
          · rw [hpatch, consumeTok_keeps _ _ _ heqc, hp3]
    · cases h
      exact ⟨[i0], rfl, by simp, rfl, hp3⟩

theorem array_loop_spec (im : Var → St → Res) (O : Oracles)
    (him : ∀ t s s', im t s = .ok s' → s'.patched = s.patched) :
    ∀ (fuel : Nat) (initial : Int) (width count : Nat) (state : CObjState) (target : Var)
      (i c : Nat) (tr0 : List Nat) (st st' : St) (c' : Nat) (tr' : List Nat),
      array_loop im O fuel initial width count state target i c tr0 st = .ok (st', c', tr') →
      ∃ new, tr' = tr0 ++ new ∧ new ≠ [] ∧
        c' = new.foldl bump c ∧
        st'.patched = st.patched := by
  intro fuel
  induction fuel with
  | zero =>
    intro initial width count state target i c tr0 st st' c' tr' h
    exact absurd h (by simp [array_loop])
  | succ fuel ih =>
    intro initial width count state target i c tr0 st st' c' tr' h
    simp only [array_loop] at h
    split at h
    · exact absurd h (by simp)
    · next v st1 heqt =>
      have hkeep : st1.patched = st.patched := try_parse_index_keeps O st _ st1 heqt
      obtain ⟨new, htr, hne, hc, hpatch⟩ :=
        array_step_spec im _ him
          (fun a b c0 d e f g h0 i0 j0 k0 l0 hh => ih a b c0 d e f g h0 i0 j0 k0 l0 hh)
          _ _ _ _ _ _ _ _ _ _ _ _ h
      refine ⟨new, htr, hne, hc, ?_⟩
      rw [hpatch]
      split
      · simpa using hkeep
      · exact hkeep
    · next st1 heqt =>
      have hkeep : st1.patched = st.patched := try_parse_index_keeps O st _ st1 heqt
      obtain ⟨new, htr, hne, hc, hpatch⟩ :=
        array_step_spec im _ him
          (fun a b c0 d e f g h0 i0 j0 k0 l0 hh => ih a b c0 d e f g h0 i0 j0 k0 l0 hh)
          _ _ _ _ _ _ _ _ _ _ _ _ h
      exact ⟨new, htr, hne, hc, by rw [hpatch, hkeep]⟩

/-- C9: for an array of incomplete (zero) size, initialize_array leaves
the owning symbol's array length patched: on the elementwise path to the
high-water mark of the written element indices, and on the
string-literal path to the literal array's length. -/
theorem c9_flexible_array_length (im : Var → St → Res) (O : Oracles) (link : Bool)
    (fuel : Nat) (target : Var) (state : CObjState) (st st' : St) (tr : List Nat)
    (him : ∀ t s s', im t s = .ok s' → s'.patched = s.patched)
    (hsz : size_of target.ty = 0)
    (hpat : st.patched = none)
    (h : initialize_array im O link fuel target state st = .ok (st', tr)) :
    (tr ≠ [] → st'.patched = some (tr.foldl bump 0)) ∧
    (tr = [] → ∃ e : ExprM, is_array e.ty = true ∧ e.l_literal = true ∧
      st'.patched = some (type_array_len e.ty) ∧
      st'.values = st.values ++ [{ t := { target with ty := e.ty }, expr := e }]) := by
  unfold initialize_array at h
  split at h
  · exact absurd h (by simp)
  · split at h
    · exact absurd h (by simp)
    · next st1 hfe =>
      obtain ⟨hp1, hv1⟩ := read_first_element_keeps O link st st1 hfe
      split at h
      · exact absurd h (by simp)
      · next st2 c tr2 hrun =>
        unfold array_run at hrun
        split at hrun
        · next hstr =>
          split at hrun
          · next e heqp =>
            cases hrun
            have hchar : is_char (type_next target.ty) = true ∧ is_array e.ty = true ∧
                e.l_literal = true := by
              unfold string_literal_case at hstr
              rw [heqp] at hstr
              simp at hstr
              exact ⟨hstr.1.1.1.1, hstr.1.1.2, hstr.2⟩
            have hwidth : size_of (type_next target.ty) = 1 := by
              cases htn : type_next target.ty <;>
                first
                  | rfl
                  | (exfalso; rw [htn] at hchar; simp [is_char] at hchar)
            unfold array_patch at h
            simp only [hsz, if_pos rfl, hwidth] at h
            simp only [Nat.mul_one] at h
            by_cases hL : type_array_len e.ty = 0
            · rw [if_pos (by simp [hL])] at h
              cases h
              refine ⟨fun htr => absurd rfl htr, fun _ => ⟨e, hchar.2.1, hchar.2.2, ?_, ?_⟩⟩
              · simp [hL]
              · simp [hv1]
            · rw [if_neg (by simp [hL])] at h
              cases h
              refine ⟨fun htr => absurd rfl htr, fun _ => ⟨e, hchar.2.1, hchar.2.2, ?_, ?_⟩⟩
              · simp
              · simp [hv1]
          · exact absurd hrun (by simp)
        · obtain ⟨new, htr2, hne, hc, hpatch2⟩ :=
            array_loop_spec im O him fuel target.offset (size_of (type_next target.ty))
              (type_array_len target.ty) state _ 0 0 [] st1 st2 c tr2 hrun
          rw [List.nil_append] at htr2
          have hp2 : st2.patched = none := by rw [hpatch2, hp1, hpat]
          unfold array_patch at h
          simp only [hsz, if_pos rfl, hp2] at h
          cases h
          constructor
          · intro _
            simp [htr2, hc]
          · intro htr
            exact absurd (htr2 ▸ htr) hne

/-- C9 witness: two positional elements into an incomplete int array
leave the symbol's length patched to 2. -/
theorem c9_witness :
    ((resATr (initialize_array arrayIm immOracle false 5 flexIntArray .MEMBER c9St)) ≠ [] →
      (resASt (initialize_array arrayIm immOracle false 5 flexIntArray .MEMBER c9St)).patched =
        some ((resATr (initialize_array arrayIm immOracle false 5 flexIntArray .MEMBER c9St)).foldl bump 0)) ∧
    ((resATr (initialize_array arrayIm immOracle false 5 flexIntArray .MEMBER c9St)) = [] →
      ∃ e : ExprM, is_array e.ty = true ∧ e.l_literal = true ∧
        (resASt (initialize_array arrayIm immOracle false 5 flexIntArray .MEMBER c9St)).patched =
          some (type_array_len e.ty) ∧
        (resASt (initialize_array arrayIm immOracle false 5 flexIntArray .MEMBER c9St)).values =
          c9St.values ++ [{ t := { flexIntArray with ty := e.ty }, expr := e }]) :=
  c9_flexible_array_length arrayIm immOracle false 5 flexIntArray .MEMBER c9St
    (resASt (initialize_array arrayIm immOracle false 5 flexIntArray .MEMBER c9St))
    (resATr (initialize_array arrayIm immOracle false 5 flexIntArray .MEMBER c9St))
    (fun t s s' h => by cases h; rfl) rfl rfl rfl

/-! C10: the public entry never leaves a pending expression. -/

theorem consumeTok_pending (t : Tok) (st st' : St) (h : consumeTok t st = .ok st') :
    st'.pending = st.pending := by
  unfold consumeTok at h
  split at h
  · cases h; rfl
  · exact absurd h (by simp)

theorem skip_comma_pending (st : St) : (skip_comma st).pending = st.pending := by
  unfold skip_comma
  split <;> rfl

theorem assign_initializer_element_pending (O : Oracles) (target : Var) (st st' : St)
    (h : assign_initializer_element O target st = .ok st') : st'.pending = none := by
  unfold assign_initializer_element at h
  split at h
  · exact absurd h (by simp)
  · cases h; rfl

theorem parse_member_designator_pending (type : Ty) (st : St) (m : Memb) (idx : Nat) (st' : St)
    (h : parse_member_designator type st = .ok (m, idx, st')) : st'.pending = st.pending := by
  unfold parse_member_designator at h
  split at h
  · split at h
    · exact absurd h (by simp)
    · split at h <;> (cases h; rfl)
  · exact absurd h (by simp)

theorem initialize_member_pending (rsou rarr : Var → CObjState → St → Res) (O : Oracles)
    (link : Bool)
    (hsou : ∀ t s stx st', rsou t s stx = .ok st' → st'.pending = none)
    (harr : ∀ t s stx st', rarr t s stx = .ok st' → st'.pending = none)
    (target : Var) (st st' : St)
    (h : initialize_member rsou rarr O link target st = .ok st') : st'.pending = none := by
  unfold initialize_member at h
  split at h
  · split at h
    · split at h
      · exact absurd h (by simp)
      · next st1 heq =>
        rw [consumeTok_pending _ _ _ h, skip_comma_pending]
        exact hsou _ _ _ _ heq
    · exact hsou _ _ _ _ h
  · split at h
    · split at h
      · exact absurd h (by simp)
      · split at h
        · split at h
          · exact absurd h (by simp)
          · next st1 heq =>
            rw [consumeTok_pending _ _ _ h, skip_comma_pending]
            exact harr _ _ _ _ heq
        · exact harr _ _ _ _ h
    · split at h
      · exact absurd h (by simp)
      · exact assign_initializer_element_pending O target _ _ h

theorem union_loop_pending (im : Var → St → Res)
    (him : ∀ t s st', im t s = .ok st' → st'.pending = none) :
    ∀ (fuel : Nat) (type : Ty) (filled : Int) (target : Var) (state : CObjState)
      (done : Bool) (lastArm : List Stmt) (tr0 : List (Bool × Nat × List Stmt))
      (st st' : St) (arm' : List Stmt) (tr' : List (Bool × Nat × List Stmt)),
      (done = true → st.pending = none) →
      union_loop im fuel type filled target state done lastArm tr0 st = .ok (st', arm', tr') →
      st'.pending = none := by
  intro fuel
  induction fuel with
  | zero =>
    intro type filled target state done lastArm tr0 st st' arm' tr' _ h
    exact absurd h (by simp [union_loop])
  | succ fuel ih =>
    intro type filled target state done lastArm tr0 st st' arm' tr' hpre h
    simp only [union_loop] at h
    split at h
    · split at h
      · exact absurd h (by simp)
      · next m idx st3 heqp =>
        split at h
        · exact absurd h (by simp)
        · next st4 heqim =>
          have h4 : st4.pending = none := him _ _ _ heqim
          split at h
          · exact ih _ _ _ _ _ _ _ _ _ _ _ (fun _ => by simpa using h4) h
          · cases h; exact h4
    · split at h
      · split at h
        · exact absurd h (by simp)
        · next m heqm =>
          split at h
          · exact absurd h (by simp)
          · next st4 heqim =>
            have h4 : st4.pending = none := him _ _ _ heqim
            split at h
            · exact ih _ _ _ _ _ _ _ _ _ _ _ (fun _ => by simpa using h4) h
            · cases h; exact h4
      · next hnd =>
        cases h
        apply hpre
        cases hdone : done
        · rw [hdone] at hnd; simp at hnd
        · rfl

theorem initialize_union_pending (im : Var → St → Res) (fuel : Nat) (target : Var)
    (state : CObjState) (st : St) (st' : St) (tr : List (Bool × Nat × List Stmt))
    (him : ∀ t s st', im t s = .ok st' → st'.pending = none)
    (h : initialize_union im fuel target state st = .ok (st', tr)) : st'.pending = none := by
  unfold initialize_union at h
  split at h
  · exact absurd h (by simp)
  · split at h
    · exact absurd h (by simp)
    · next st1 arm tr1 heq =>
      cases h
      simpa using union_loop_pending im him fuel _ _ _ _ _ _ _ _ _ _ _ (by simp) heq

theorem struct_loop_pending (im : Var → St → Res)
    (him : ∀ t s st', im t s = .ok st' → st'.pending = none) :
    ∀ (fuel : Nat) (type : Ty) (ms : List Memb) (m : Nat) (filled : Int) (target : Var)
      (state : CObjState) (prev : Option Memb) (i : Nat) (st st' : St),
      struct_loop im fuel type ms m filled target state prev i st = .ok st' →
      st'.pending = none := by
  intro fuel
  induction fuel with
  | zero =>
    intro type ms m filled target state prev i st st' h
    exact absurd h (by simp [struct_loop])
  | succ fuel ih =>
    intro type ms m filled target state prev i st st' h
    simp only [struct_loop] at h
    split at h
    · split at h
      · exact absurd h (by simp)
      · next mem idx st3 heqp =>
        split at h
        · exact absurd h (by simp)
        · next st4 heqim =>
          have h4 : st4.pending = none := him _ _ _ heqim
          split at h
          · exact ih _ _ _ _ _ _ _ _ _ _ h
          · cases h; exact h4
    · split at h
      · exact absurd h (by simp)
      · next mem i' heqs =>
        split at h
        · exact absurd h (by simp)
        · next st4 heqim =>
          have h4 : st4.pending = none := him _ _ _ heqim
          split at h
          · cases h; exact h4
          · split at h
            · exact ih _ _ _ _ _ _ _ _ _ _ h
            · cases h; exact h4

theorem initialize_struct_pending (im : Var → St → Res) (fuel : Nat) (target : Var)
    (state : CObjState) (st st' : St)
    (him : ∀ t s st', im t s = .ok st' → st'.pending = none)
    (h : initialize_struct im fuel target state st = .ok st') : st'.pending = none := by
  unfold initialize_struct at h
  split at h
  · exact absurd h (by simp)
  · exact struct_loop_pending im him fuel _ _ _ _ _ _ _ _ _ _ h

theorem initialize_struct_or_union_pending (im : Var → St → Res) (O : Oracles) (link : Bool)
    (fuel : Nat) (target : Var) (state : CObjState) (st st' : St)
    (him : ∀ t s st', im t s = .ok st' → st'.pending = none)
    (h : initialize_struct_or_union im O link fuel target state st = .ok st') :
    st'.pending = none := by
  unfold initialize_struct_or_union at h
  split at h
  · exact absurd h (by simp)
  · split at h
    · exact absurd h (by simp)
    · next st1 heq =>
      split at h
      · next e heqp =>
        split at h
        · cases h; rfl
        · split at h
          · cases hm : initialize_union im fuel target state st1 with
            | error er => rw [hm] at h; simp [Except.map] at h
            | ok p =>
              rw [hm] at h
              obtain ⟨stu, tru⟩ := p
              simp [Except.map] at h
              subst h
              exact initialize_union_pending im fuel target state st1 _ tru him hm
          · exact initialize_struct_pending im fuel target state st1 st' him h
      · split at h
        · cases hm : initialize_union im fuel target state st1 with
          | error er => rw [hm] at h; simp [Except.map] at h
          | ok p =>
            rw [hm] at h
            obtain ⟨stu, tru⟩ := p
            simp [Except.map] at h
            subst h
            exact initialize_union_pending im fuel target state st1 _ tru him hm
        · exact initialize_struct_pending im fuel target state st1 st' him h

theorem array_step_pending (im : Var → St → Res)
    (rec : Int → Nat → Nat → CObjState → Var → Nat → Nat → List Nat → St →
      Except Err (St × Nat × List Nat))
    (him : ∀ t s st', im t s = .ok st' → st'.pending = none)
    (hrec : ∀ initial width count state target i c tr0 st st' c' tr',
      rec initial width count state target i c tr0 st = .ok (st', c', tr') →
      st'.pending = none) :
    ∀ (initial : Int) (width count : Nat) (state : CObjState) (target : Var)
      (i0 : Nat) (st2 : St) (c : Nat) (tr0 : List Nat) (st' : St) (c' : Nat) (tr' : List Nat),
      array_step im rec initial width count state target i0 st2 c tr0 = .ok (st', c', tr') →
      st'.pending = none := by
  intro initial width count state target i0 st2 c tr0 st' c' tr' h
  unfold array_step at h
  split at h
  · exact absurd h (by simp)
  · next st3 heqim =>
    have h3 : st3.pending = none := him _ _ _ heqim
    split at h
    · split at h
      · cases h; exact h3
      · split at h
        · exact absurd h (by simp)
        · exact hrec _ _ _ _ _ _ _ _ _ _ _ _ h
    · cases h; exact h3

theorem array_loop_pending (im : Var → St → Res) (O : Oracles)
    (him : ∀ t s st', im t s = .ok st' → st'.pending = none) :
    ∀ (fuel : Nat) (initial : Int) (width count : Nat) (state : CObjState) (target : Var)
      (i c : Nat) (tr0 : List Nat) (st st' : St) (c' : Nat) (tr' : List Nat),
      array_loop im O fuel initial width count state target i c tr0 st = .ok (st', c', tr') →
      st'.pending = none := by
  intro fuel
  induction fuel with
  | zero =>
    intro initial width count state target i c tr0 st st' c' tr' h
    exact absurd h (by simp [array_loop])
  | succ fuel ih =>
    intro initial width count state target i c tr0 st st' c' tr' h
    simp only [array_loop] at h
    split at h
    · exact absurd h (by simp)
    · exact array_step_pending im _ him
        (fun a b c0 d e f g h0 i0 j0 k0 l0 hh => ih a b c0 d e f g h0 i0 j0 k0 l0 hh)
        _ _ _ _ _ _ _ _ _ _ _ _ h
    · exact array_step_pending im _ him
        (fun a b c0 d e f g h0 i0 j0 k0 l0 hh => ih a b c0 d e f g h0 i0 j0 k0 l0 hh)
        _ _ _ _ _ _ _ _ _ _ _ _ h

theorem initialize_array_pending (im : Var → St → Res) (O : Oracles) (link : Bool)
    (fuel : Nat) (target : Var) (state : CObjState) (st st' : St) (tr : List Nat)
    (him : ∀ t s st', im t s = .ok st' → st'.pending = none)
    (h : initialize_array im O link fuel target state st = .ok (st', tr)) :
    st'.pending = none := by
  unfold initialize_array at h
  split at h
  · exact absurd h (by simp)
  · split at h
    · exact absurd h (by simp)
    · next st1 hfe =>
      split at h
      · exact absurd h (by simp)
      · next st2 c tr2 hrun =>
        have h2 : st2.pending = none := by
          unfold array_run at hrun
          split at hrun
          · split at hrun
            · cases hrun; rfl
            · exact absurd hrun (by simp)
          · exact array_loop_pending im O him fuel _ _ _ _ _ _ _ _ _ _ _ _ hrun
        unfold array_patch at h
        by_cases hc : (if size_of target.ty = 0 then
              (match st2.patched with
               | some len => len * size_of (type_next target.ty)
               | none => 0)
            else size_of target.ty) = 0
        · rw [if_pos hc] at h
          cases h
          exact h2
        · rw [if_neg hc] at h
          cases h
          exact h2

theorem initialize_object_pending (rsou rarr : Var → CObjState → St → Res)
    (rself : Var → St → Res) (O : Oracles) (link : Bool)
    (hsou : ∀ t s stx st', rsou t s stx = .ok st' → st'.pending = none)
    (harr : ∀ t s stx st', rarr t s stx = .ok st' → st'.pending = none)
    (hself : ∀ t stx st', rself t stx = .ok st' → st'.pending = none)
    (target : Var) (st st' : St)
    (h : initialize_object rsou rarr rself O link target st = .ok st') : st'.pending = none := by
  unfold initialize_object at h
  split at h
  · exact absurd h (by simp)
  · split at h
    · split at h
      · exact absurd h (by simp)
      · next st1 heq =>
        rw [consumeTok_pending _ _ _ h, skip_comma_pending]
        split at heq
        · exact hsou _ _ _ _ heq
        · split at heq
          · exact harr _ _ _ _ heq
          · exact hself _ _ _ heq
    · split at h
      · exact harr _ _ _ _ h
      · split at h
        · exact absurd h (by simp)
        · exact assign_initializer_element_pending O target _ _ h

theorem engine_pending (O : Oracles) (link : Bool) :
    ∀ (fuel : Nat) (c : Call) (st st' : St),
      engine O link fuel c st = .ok st' → st'.pending = none := by
  intro fuel
  induction fuel with
  | zero => intro c st st' h; exact absurd h (by simp [engine])
  | succ fuel ih =>
    intro c st st' h
    cases c with
    | member target =>
      simp only [engine] at h
      refine initialize_member_pending _ _ O link ?_ ?_ target st st' h
      · intro t s stx stx' hh
        exact initialize_struct_or_union_pending _ O link fuel t s stx stx'
          (fun t2 s2 st2 hh2 => ih (.member t2) s2 st2 hh2) hh
      · intro t s stx stx' hh
        cases ha : initialize_array (fun t2 st2 => engine O link fuel (.member t2) st2)
            O link fuel t s stx with
        | error er => rw [ha] at hh; exact absurd hh (by simp [Except.map])
        | ok p =>
          obtain ⟨sta, tra⟩ := p
          rw [ha] at hh
          simp [Except.map] at hh
          rw [← hh]
          exact initialize_array_pending _ O link fuel t s stx sta tra
            (fun t2 s2 st2 hh2 => ih (.member t2) s2 st2 hh2) ha
    | obj target =>
      simp only [engine] at h
      refine initialize_object_pending _ _ _ O link ?_ ?_ ?_ target st st' h
      · intro t s stx stx' hh
        exact initialize_struct_or_union_pending _ O link fuel t s stx stx'
          (fun t2 s2 st2 hh2 => ih (.member t2) s2 st2 hh2) hh
      · intro t s stx stx' hh
        cases ha : initialize_array (fun t2 st2 => engine O link fuel (.member t2) st2)
            O link fuel t s stx with
        | error er => rw [ha] at hh; exact absurd hh (by simp [Except.map])
        | ok p =>
          obtain ⟨sta, tra⟩ := p
          rw [ha] at hh
          simp [Except.map] at hh
          rw [← hh]
          exact initialize_array_pending _ O link fuel t s stx sta tra
            (fun t2 s2 st2 hh2 => ih (.member t2) s2 st2 hh2) ha
      · intro t stx stx' hh
        exact ih (.obj t) stx stx' hh

/-- C10: every successful run of the public entry initializer returns a
block with no pending expression (has_init_value cleared), on both the
brace/array path and the single-scalar path. -/
theorem c10_initializer_no_pending (O : Oracles) (fuel : Nat) (sym : SymM) (st st' : St)
    (h : initializer O fuel sym st = .ok st') : st'.pending = none := by
  unfold initializer at h
  split at h
  · split at h
    · exact absurd h (by simp)
    · next st1 heng =>
      cases h
      have hp := engine_pending O sym.linkage fuel (Call.obj (var_direct sym)) _ st1 heng
      exact hp
  · split at h
    · exact absurd h (by simp)
    · next st1 hre =>
      split at h
      · cases h; rfl
      · exact absurd h (by simp)

/-- C10 witness: a braced array initializer run returns with no pending
expression. -/
theorem c10_witness :
    (resSt (initializer immOracle 10 { linkage := false, ty := .t_array .t_int 2 }
      { toks := [.lbrace, .other, .comma, .other, .rbrace],
        pending := none, block := [], values := [], patched := none })).pending = none :=
  c10_initializer_no_pending immOracle 10 { linkage := false, ty := .t_array .t_int 2 }
    { toks := [.lbrace, .other, .comma, .other, .rbrace],
      pending := none, block := [], values := [], patched := none }
    (resSt (initializer immOracle 10 { linkage := false, ty := .t_array .t_int 2 }
      { toks := [.lbrace, .other, .comma, .other, .rbrace],
        pending := none, block := [], values := [], patched := none })) rfl

end Lacc
